import Mathlib

/-!
# Hare consensus process (`hare/algorithm.go`)

A shallow embedding of the per-instance consensus state machine of
`hare/algorithm.go` and theorems about it.

Conventions of the embedding.

* A Go method with a pointer receiver `proc *ConsensusProcess` is a function
  `ConsensusProcess D → ConsensusProcess D` (explicit state passing).
* A run-time panic (nil dereference, index out of range, explicit `panic`)
  sets the ghost field `panicked` and stops the handler at that point, keeping
  the state reached so far.
* Effects on the outside world are recorded in ghost logs of the process:
  `handed` (messages passed to `sendMessage`), `broadcasts` (payloads passed to
  `network.Broadcast`), `reports` (arguments of `reportValidationResult`),
  `terminationReport` (values written to the termination channel), `inbox`
  (values written to the inbox channel) and `loops` (event loops spawned).
* The trackers, the message validator, the oracle, the signer, the set type and
  the protobuf marshaller are collaborators whose code is outside
  `algorithm.go`; they are the fields of `Deps`, so every theorem holds for
  every implementation of them. A tracker is a value of an abstract type, a
  mutating method returns the tracker after the call, a query is a function
  of the tracker. A nil tracker pointer is `none`, and calling a method on it
  is a panic.
* A channel is the list of the values written to it; a send appends and does
  not block.
* `uint32` values are `Nat` with explicit reduction modulo `2^32`; `int32` and
  `int` values are `Int`.
-/

namespace Hare

/-- Byte strings: a byte is a natural number below 256. -/
abbrev Bytes := List Nat

/-- Message types of the protocol (`MessageType(m.Message.Type)`); `other` stands for
every wire value that is none of the five known types. -/
inductive MessageType where
  | PreRound
  | Status
  | Proposal
  | Commit
  | Notify
  | other (n : Int)
  deriving DecidableEq, Repr

/-- Roles a participant can have in a round. -/
inductive Role where
  | Passive
  | Active
  | Leader
  deriving DecidableEq, Repr

/-- Modelled from the spec: the inner payload of the on-wire message (`pb.InnerMessage`),
`{ type, k, ki, values, roleProof }` together with the instance id carried in every message. -/
structure InnerMessage where
  type : MessageType
  instanceId : Bytes
  k : Nat
  ki : Int
  values : List Bytes
  roleProof : Bytes
  deriving DecidableEq, Repr

mutual
/-- Modelled from the spec: the on-wire message (`pb.HareMessage`),
`{ pubKey, signature, inner, certificate?, svp? }`; pointer fields are options. -/
inductive HareMessage where
  | mk (pubKey : Bytes) (innerSig : Bytes) (message : Option InnerMessage)
      (cert : Option Certificate) (svp : Option AggregatedMessages)
/-- Modelled from the spec: a certificate (`pb.Certificate`), an aggregate of commit messages. -/
inductive Certificate where
  | mk (aggMsgs : Option AggregatedMessages)
/-- Modelled from the spec: an aggregate of messages (`pb.AggregatedMessages`). -/
inductive AggregatedMessages where
  | mk (messages : List (Option HareMessage))
end

/-- Field `PubKey` of a message. -/
def HareMessage.pubKey : HareMessage → Bytes
  | .mk pk _ _ _ _ => pk

/-- Field `InnerSig` of a message. -/
def HareMessage.innerSig : HareMessage → Bytes
  | .mk _ sg _ _ _ => sg

/-- Field `Message` of a message (a pointer, possibly nil). -/
def HareMessage.message : HareMessage → Option InnerMessage
  | .mk _ _ im _ _ => im

/-- Field `Cert` of a message (a pointer, possibly nil). -/
def HareMessage.cert : HareMessage → Option Certificate
  | .mk _ _ _ c _ => c

/-- Field `Svp` of a message (a pointer, possibly nil). -/
def HareMessage.svp : HareMessage → Option AggregatedMessages
  | .mk _ _ _ _ sv => sv

/-- Field `AggMsgs` of a certificate (a pointer, possibly nil). -/
def Certificate.aggMsgs : Certificate → Option AggregatedMessages
  | .mk a => a

/-- Field `Messages` of an aggregate (a slice of pointers). -/
def AggregatedMessages.messages : AggregatedMessages → List (Option HareMessage)
  | .mk ms => ms

/-- The wrapper delivered on the inbox (`Message`): the payload pointer `msg`. -/
structure Message where
  msg : Option HareMessage

/-- The instance identifier; `bytes` is the result of `Bytes()`. -/
structure InstanceId where
  bytes : Bytes
  deriving DecidableEq, Repr

/-- The configuration (`config.Config`): committee size, fault bound, proposal capacity. -/
structure Config where
  N : Int
  F : Int
  SetSize : Int
  deriving DecidableEq, Repr

/-- Errors returned by the process. -/
inductive HareError where
  | StartInstanceError (text : String)
  deriving DecidableEq, Repr

/-- Modelled from the spec: the round constants, `Round1..Round4` are `k mod 4 = 0..3`. -/
def Round1 : Nat := 0
/-- Second round (proposal). -/
def Round2 : Nat := 1
/-- Third round (commit). -/
def Round3 : Nat := 2
/-- Fourth round (notify). -/
def Round4 : Nat := 3

/-- Go conversion `uint32(x)` of a natural number: reduction modulo `2^32`. -/
def toUint32 (n : Nat) : Nat := n % 4294967296

/-- Go conversion `int32(x)` of a `uint32` value: two's complement reinterpretation. -/
def toInt32 (n : Nat) : Int :=
  if n % 4294967296 < 2147483648 then ((n % 4294967296 : Nat) : Int)
  else ((n % 4294967296 : Nat) : Int) - 4294967296

/-- Go addition on the 64-bit `int` type: two's complement wrap-around. -/
def addInt (a b : Int) : Int :=
  (a + b + 9223372036854775808) % 18446744073709551616 - 9223372036854775808

/-- The collaborators of the consensus process whose code is outside `algorithm.go`. -/
structure Deps where
  /-- The set type `Set`. -/
  HSet : Type
  /-- The type of `PreRoundTracker` states. -/
  PreRoundTracker : Type
  /-- The type of `StatusTracker` states. -/
  StatusTracker : Type
  /-- The type of proposal tracker states. -/
  ProposalTracker : Type
  /-- The type of commit tracker states. -/
  CommitTracker : Type
  /-- The type of `NotifyTracker` states. -/
  NotifyTracker : Type
  /-- The constructor `NewSet(values)`. -/
  NewSet : List Bytes → HSet
  /-- The values the builder stores for a set (`SetValues(s)`). -/
  setValues : HSet → List Bytes
  /-- The method `Clone` of a set. -/
  Clone : HSet → HSet
  /-- The oracle: `Eligible(seed, committeeSize, identity, roleProof)`. -/
  Eligible : Nat → Int → String → Bytes → Bool
  /-- The signer: `Sign(bytes)`. -/
  Sign : Bytes → Bytes
  /-- The signature the builder attaches over the inner message. -/
  signInner : InnerMessage → Bytes
  /-- The bytes of the own identity, `signing.Verifier().Bytes()`. -/
  verifierBytes : Bytes
  /-- The string of the own identity, `signing.Verifier().String()`. -/
  verifierString : String
  /-- The identity string of `NewVerifier(pubKey)`, or none when it returns an error. -/
  NewVerifier : Bytes → Option String
  /-- The 32-bit hasher `newHasherU32().Hash`. -/
  hashU32 : Bytes → Nat
  /-- The protobuf marshaller `proto.Marshal`, none on error. -/
  Marshal : HareMessage → Option Bytes
  /-- Syntactic validation of the validator built with `(F+1, N, statusValidator)`. -/
  SyntacticallyValidateMessage :
    Int → Int → (HareMessage → Option Bool) → HareMessage → Bool
  /-- Contextual validation of the same validator against a round counter. -/
  ContextuallyValidateMessage :
    Int → Int → (HareMessage → Option Bool) → HareMessage → Nat → Bool
  /-- The constructor `NewPreRoundTracker(threshold, N)`. -/
  NewPreRoundTracker : Int → Int → PreRoundTracker
  /-- The method `OnPreRound`. -/
  OnPreRound : PreRoundTracker → HareMessage → PreRoundTracker
  /-- The method `CanProveSet`. -/
  CanProveSet : PreRoundTracker → HSet → Bool
  /-- The method `FilterSet`, returning the filtered set. -/
  FilterSet : PreRoundTracker → HSet → HSet
  /-- The constructor `NewStatusTracker(threshold, N)`. -/
  NewStatusTracker : Int → Int → StatusTracker
  /-- The method `RecordStatus`. -/
  RecordStatus : StatusTracker → HareMessage → StatusTracker
  /-- The method `AnalyzeStatuses(validator)`. -/
  AnalyzeStatuses : StatusTracker → (HareMessage → Option Bool) → StatusTracker
  /-- The method `IsSVPReady`. -/
  IsSVPReady : StatusTracker → Bool
  /-- The method `ProposalSet(capacity)`. -/
  ProposalSet : StatusTracker → Int → HSet
  /-- The method `BuildSVP`, none for a nil result. -/
  BuildSVP : StatusTracker → Option AggregatedMessages
  /-- The constructor `NewProposalTracker(N)`. -/
  NewProposalTracker : Int → ProposalTracker
  /-- The method `OnProposal`. -/
  OnProposal : ProposalTracker → HareMessage → ProposalTracker
  /-- The method `OnLateProposal`. -/
  OnLateProposal : ProposalTracker → HareMessage → ProposalTracker
  /-- The method `IsConflicting`. -/
  IsConflicting : ProposalTracker → Bool
  /-- The method `ProposedSet`, none for a nil result. -/
  ProposedSet : ProposalTracker → Option HSet
  /-- The constructor `NewCommitTracker(threshold, N, proposedSet)`. -/
  NewCommitTracker : Int → Int → Option HSet → CommitTracker
  /-- The method `OnCommit`. -/
  OnCommit : CommitTracker → HareMessage → CommitTracker
  /-- The method `HasEnoughCommits`. -/
  HasEnoughCommits : CommitTracker → Bool
  /-- The method `BuildCertificate`, none for a nil result. -/
  BuildCertificate : CommitTracker → Option Certificate
  /-- The constructor `NewNotifyTracker(N)`. -/
  NewNotifyTracker : Int → NotifyTracker
  /-- The method `OnNotify`: the `ignored` result and the tracker after the call. -/
  OnNotify : NotifyTracker → HareMessage → Bool × NotifyTracker
  /-- The method `NotificationsCount`. -/
  NotificationsCount : NotifyTracker → HSet → Int
  /-- The method `HasCertificate(ki, s)`. -/
  HasCertificate : NotifyTracker → Int → HSet → Bool

/-- The termination output `procOutput{id, set}`. -/
structure procOutput (D : Deps) where
  id : InstanceId
  set : D.HSet

/-- The protocol state `State{k, ki, s, certificate}`. -/
structure State (D : Deps) where
  k : Nat
  ki : Int
  s : D.HSet
  certificate : Option Certificate

/-- The consensus process `ConsensusProcess`, with the ghost logs described in the header. -/
structure ConsensusProcess (D : Deps) extends State D where
  closed : Bool
  instanceId : InstanceId
  startTime : Int
  inbox : List Message
  terminationReport : List (procOutput D)
  preRoundTracker : D.PreRoundTracker
  statusesTracker : Option D.StatusTracker
  proposalTracker : Option D.ProposalTracker
  commitTracker : Option D.CommitTracker
  notifyTracker : D.NotifyTracker
  terminating : Bool
  cfg : Config
  notifySent : Bool
  pending : List (String × Message)
  panicked : Bool
  handed : List HareMessage
  broadcasts : List Bytes
  reports : List Bool
  loops : Nat

variable {D : Deps}

/-- The threshold `cfg.F+1` as the code computes it. -/
def threshold (cfg : Config) : Int := addInt cfg.F 1

/-- The constructor `NewConsensusProcess(cfg, instanceId, s, ...)`. -/
def NewConsensusProcess (D : Deps) (cfg : Config) (instanceId : InstanceId) (s : D.HSet) :
    ConsensusProcess D :=
  { k := 0
    ki := -1
    s := D.Clone s
    certificate := none
    closed := false
    instanceId := instanceId
    startTime := 0
    inbox := []
    terminationReport := []
    preRoundTracker := D.NewPreRoundTracker (threshold cfg) cfg.N
    statusesTracker := some (D.NewStatusTracker (threshold cfg) cfg.N)
    proposalTracker := some (D.NewProposalTracker cfg.N)
    commitTracker := some (D.NewCommitTracker (threshold cfg) cfg.N none)
    notifyTracker := D.NewNotifyTracker cfg.N
    terminating := false
    cfg := cfg
    notifySent := false
    pending := []
    panicked := false
    handed := []
    broadcasts := []
    reports := []
    loops := 0 }

/-- Returns the iteration number from a given round counter (`iterationFromCounter`). -/
def iterationFromCounter (roundCounter : Nat) : Nat := roundCounter / 4

/-- The method `Start(now)`, where `now` is the value of `time.Now()`; the zero time is `0`. -/
def Start (now : Int) (p : ConsensusProcess D) : Option HareError × ConsensusProcess D :=
  if p.startTime ≠ 0 then
    (some (HareError.StartInstanceError "instance already started"), p)
  else
    (none, { p with startTime := now, loops := p.loops + 1 })

/-- The method `advanceToNextRound`: `proc.k++` on a `uint32`. -/
def advanceToNextRound (p : ConsensusProcess D) : ConsensusProcess D :=
  { p with k := toUint32 (p.k + 1) }

/-- The method `currentRound`: `int(proc.k % 4)`. -/
def currentRound (p : ConsensusProcess D) : Nat := p.k % 4

/-- Runs `f` unless the process has panicked: the statements after a panic are not executed. -/
def thenDo (p : ConsensusProcess D) (f : ConsensusProcess D → ConsensusProcess D) :
    ConsensusProcess D :=
  if p.panicked then p else f p

/-- The function `roleFromRoundCounter`. -/
def roleFromRoundCounter (k : Nat) : Role :=
  if k % 4 = Round2 then Role.Leader
  else if k % 4 = Round4 then Role.Passive
  else Role.Active

/-- The method `expectedCommitteeSize`. -/
def expectedCommitteeSize (p : ConsensusProcess D) (k : Nat) : Int :=
  if k % 4 = Round2 then 1 else p.cfg.N

/-- The function `hashInstanceAndK`: the hash of the id bytes followed by `byte(K)`. -/
def hashInstanceAndK (D : Deps) (instanceID : InstanceId) (K : Nat) : Nat :=
  D.hashU32 (instanceID.bytes ++ [K % 256])

/-- The four bytes `binary.LittleEndian.PutUint32` writes for a `uint32`. -/
def putUint32LE (n : Nat) : Bytes :=
  [n % 256, n / 256 % 256, n / 65536 % 256, n / 16777216 % 256]

/-- One step of Go `hash/fnv` `New32` (FNV-1): multiply by the prime, then xor the byte. -/
def fnv32Step (h : Nat) (b : Nat) : Nat :=
  Nat.xor ((h * 16777619) % 4294967296) (b % 256)

/-- Go `hash/fnv` `New32`: `Sum32` after writing the bytes `bs`. -/
def fnv32 (bs : Bytes) : Nat := bs.foldl fnv32Step 2166136261

/-- The bytes `roleProof` passes to `Sign`. -/
def roleProofInput (D : Deps) (k : Nat) : Bytes :=
  putUint32LE (toUint32 (fnv32 (D.verifierBytes ++ putUint32LE (toUint32 k))))

/-- The method `roleProof`. -/
def roleProof (p : ConsensusProcess D) : Bytes :=
  D.Sign (roleProofInput D p.k)

/-- The method `currentRole`. -/
def currentRole (p : ConsensusProcess D) : Role :=
  if D.Eligible (hashInstanceAndK D p.instanceId p.k) (expectedCommitteeSize p p.k)
      D.verifierString (roleProof p) then
    if currentRound p = Round2 then Role.Leader else Role.Active
  else Role.Passive

/-- The method `isEligible`. -/
def isEligible (p : ConsensusProcess D) : Bool :=
  currentRole p ≠ Role.Passive

/-- Modelled from the spec: the `MessageBuilder`, a message under construction. The type of
a fresh builder is the zero value of the wire enum, written `other 0`; every caller sets the
type before `Build`. -/
structure MessageBuilder where
  pubKey : Bytes
  innerSig : Bytes
  inner : InnerMessage
  cert : Option Certificate
  svp : Option AggregatedMessages

/-- Modelled from the spec: `NewMessageBuilder()`. -/
def NewMessageBuilder : MessageBuilder :=
  { pubKey := [], innerSig := [],
    inner := { type := MessageType.other 0, instanceId := [], k := 0, ki := 0, values := [],
               roleProof := [] },
    cert := none, svp := none }

/-- Modelled from the spec: `SetType`. -/
def MessageBuilder.SetType (b : MessageBuilder) (t : MessageType) : MessageBuilder :=
  { b with inner := { b.inner with type := t } }

/-- Modelled from the spec: `SetCertificate`. -/
def MessageBuilder.SetCertificate (b : MessageBuilder) (c : Option Certificate) :
    MessageBuilder :=
  { b with cert := c }

/-- Modelled from the spec: `SetSVP`. -/
def MessageBuilder.SetSVP (b : MessageBuilder) (svp : Option AggregatedMessages) :
    MessageBuilder :=
  { b with svp := svp }

/-- Modelled from the spec: `Sign(signing)`, the signature over the inner payload. -/
def MessageBuilder.Sign (D : Deps) (b : MessageBuilder) : MessageBuilder :=
  { b with innerSig := D.signInner b.inner }

/-- Modelled from the spec: `Build`, the message under construction (a non-nil pointer). -/
def MessageBuilder.Build (b : MessageBuilder) : Option HareMessage :=
  some (HareMessage.mk b.pubKey b.innerSig (some b.inner) b.cert b.svp)

/-- The method `initDefaultBuilder(s)`. -/
def initDefaultBuilder (s : D.HSet) (p : ConsensusProcess D) : MessageBuilder :=
  { NewMessageBuilder with
    pubKey := D.verifierBytes
    inner := { NewMessageBuilder.inner with
               instanceId := p.instanceId.bytes, k := p.k, ki := p.ki,
               values := D.setValues s, roleProof := roleProof p } }

/-- The method `sendMessage(msg)`. -/
def sendMessage (msg : Option HareMessage) (p : ConsensusProcess D) : ConsensusProcess D :=
  match msg with
  | none => p
  | some m =>
    let p1 := { p with handed := p.handed ++ [m] }
    if !isEligible p1 then p1
    else
      match D.Marshal m with
      | none => { p1 with panicked := true }
      | some data => { p1 with broadcasts := p1.broadcasts ++ [data] }

/-- The closure returned by `statusValidator`; none when `m.Message` is nil (a panic). -/
def statusValidator (p : ConsensusProcess D) (m : HareMessage) : Option Bool :=
  match m.message with
  | none => none
  | some inner =>
    let s := D.NewSet inner.values
    if inner.ki = -1 then
      if D.CanProveSet p.preRoundTracker s then some true else some false
    else
      if D.HasCertificate p.notifyTracker inner.ki s then some true else some false

/-- The method `beginRound1`. -/
def beginRound1 (p : ConsensusProcess D) : ConsensusProcess D :=
  let p1 := { p with statusesTracker := some (D.NewStatusTracker (threshold p.cfg) p.cfg.N) }
  let statusMsg := (((initDefaultBuilder p1.s p1).SetType MessageType.Status).Sign D).Build
  sendMessage statusMsg p1

/-- The method `beginRound2`. -/
def beginRound2 (p : ConsensusProcess D) : ConsensusProcess D :=
  let p1 := { p with proposalTracker := some (D.NewProposalTracker p.cfg.N) }
  let p2 :=
    if isEligible p1 then
      match p1.statusesTracker with
      | none => { p1 with panicked := true }
      | some st =>
        if D.IsSVPReady st then
          let builder := initDefaultBuilder (D.ProposalSet st p1.cfg.SetSize) p1
          match D.BuildSVP st with
          | some svp =>
            sendMessage (((builder.SetType MessageType.Proposal).SetSVP (some svp)).Sign D).Build
              p1
          | none => p1
        else p1
    else p1
  thenDo p2 fun q => { q with statusesTracker := none }

/-- The method `beginRound3`. -/
def beginRound3 (p : ConsensusProcess D) : ConsensusProcess D :=
  match p.proposalTracker with
  | none => { p with panicked := true }
  | some pt =>
    let proposedSet := D.ProposedSet pt
    let p1 := { p with
      commitTracker := some (D.NewCommitTracker (threshold p.cfg) p.cfg.N proposedSet) }
    let p2 :=
      match proposedSet with
      | some ps =>
        sendMessage (((initDefaultBuilder ps p1).SetType MessageType.Commit).Sign D).Build p1
      | none => p1
    thenDo p2 fun q => { q with
      commitTracker := some (D.NewCommitTracker (threshold q.cfg) q.cfg.N proposedSet) }

/-- The method `beginRound4`. -/
def beginRound4 (p : ConsensusProcess D) : ConsensusProcess D :=
  { p with commitTracker := none, proposalTracker := none }

/-- The method `handlePending`: every stashed message is written to the inbox. -/
def handlePending (pending : List (String × Message)) (p : ConsensusProcess D) :
    ConsensusProcess D :=
  { p with inbox := p.inbox ++ pending.map Prod.snd }

/-- The method `onRoundBegin`. -/
def onRoundBegin (p : ConsensusProcess D) : ConsensusProcess D :=
  let p1 :=
    if currentRound p = Round1 then beginRound1 p
    else if currentRound p = Round2 then beginRound2 p
    else if currentRound p = Round3 then beginRound3 p
    else if currentRound p = Round4 then beginRound4 p
    else { p with panicked := true }
  thenDo p1 fun q =>
    let pendingProcess := q.pending
    handlePending pendingProcess { q with pending := [] }

/-- The method `endOfRound1`. -/
def endOfRound1 (p : ConsensusProcess D) : ConsensusProcess D :=
  match p.statusesTracker with
  | none => { p with panicked := true }
  | some st => { p with statusesTracker := some (D.AnalyzeStatuses st (statusValidator p)) }

/-- The method `endOfRound3`. -/
def endOfRound3 (p : ConsensusProcess D) : ConsensusProcess D :=
  if p.notifySent then p
  else
    match p.proposalTracker with
    | none => { p with panicked := true }
    | some pt =>
      if D.IsConflicting pt then p
      else
        match p.commitTracker with
        | none => { p with panicked := true }
        | some ct =>
          if !D.HasEnoughCommits ct then p
          else
            match D.BuildCertificate ct with
            | none => p
            | some cert =>
              match D.ProposedSet pt with
              | none => p
              | some s =>
                let p1 := { p with s := s, certificate := some cert }
                let builder :=
                  (((initDefaultBuilder p1.s p1).SetType MessageType.Notify).SetCertificate
                    p1.certificate).Sign D
                let p2 := sendMessage builder.Build p1
                thenDo p2 fun q => { q with notifySent := true }

/-- The method `onRoundEnd`. -/
def onRoundEnd (p : ConsensusProcess D) : ConsensusProcess D :=
  if currentRound p = Round1 then endOfRound1 p
  else if currentRound p = Round3 then endOfRound3 p
  else p

/-- The method `validateRole(m)`. -/
def validateRole (p : ConsensusProcess D) (m : Option HareMessage) : Bool :=
  match m with
  | none => false
  | some hm =>
    match hm.message with
    | none => false
    | some inner =>
      match D.NewVerifier hm.pubKey with
      | none => false
      | some verifier =>
        if !D.Eligible (hashInstanceAndK D p.instanceId inner.k)
            (expectedCommitteeSize p inner.k) verifier inner.roleProof then false
        else true

/-- The method `onEarlyMessage(m)`; `pending` is the map as a list of key-value pairs. -/
def onEarlyMessage (m : Message) (p : ConsensusProcess D) : ConsensusProcess D :=
  match m.msg with
  | none => p
  | some hm =>
    match D.NewVerifier hm.pubKey with
    | none => p
    | some verifier =>
      if (p.pending.lookup verifier).isSome then p
      else { p with pending := p.pending ++ [(verifier, m)] }

/-- The method `processPreRoundMsg`. -/
def processPreRoundMsg (msg : HareMessage) (p : ConsensusProcess D) : ConsensusProcess D :=
  { p with preRoundTracker := D.OnPreRound p.preRoundTracker msg }

/-- The method `processStatusMsg`; a nil tracker is a panic. -/
def processStatusMsg (msg : HareMessage) (p : ConsensusProcess D) : ConsensusProcess D :=
  match p.statusesTracker with
  | none => { p with panicked := true }
  | some st => { p with statusesTracker := some (D.RecordStatus st msg) }

/-- The method `processProposalMsg`; a nil tracker is a panic. -/
def processProposalMsg (msg : HareMessage) (p : ConsensusProcess D) : ConsensusProcess D :=
  match p.proposalTracker with
  | none => { p with panicked := true }
  | some pt =>
    if currentRound p = Round2 then { p with proposalTracker := some (D.OnProposal pt msg) }
    else { p with proposalTracker := some (D.OnLateProposal pt msg) }

/-- The method `processCommitMsg`; a nil tracker is a panic. -/
def processCommitMsg (msg : HareMessage) (p : ConsensusProcess D) : ConsensusProcess D :=
  match p.commitTracker with
  | none => { p with panicked := true }
  | some ct => { p with commitTracker := some (D.OnCommit ct msg) }

/-- The expression `msg.Cert.AggMsgs.Messages[0].Message.K`; none when evaluating it panics. -/
def certFirstK (msg : HareMessage) : Option Nat :=
  match msg.cert with
  | none => none
  | some c =>
    match c.aggMsgs with
    | none => none
    | some a =>
      match a.messages with
      | [] => none
      | none :: _ => none
      | some m0 :: _ =>
        match m0.message with
        | none => none
        | some im => some im.k

/-- The method `processNotifyMsg`. -/
def processNotifyMsg (msg : HareMessage) (p : ConsensusProcess D) : ConsensusProcess D :=
  match msg.message with
  | none => { p with panicked := true }
  | some inner =>
    let s := D.NewSet inner.values
    let r := D.OnNotify p.notifyTracker msg
    let p1 := { p with notifyTracker := r.2 }
    if r.1 then p1
    else
      let p2 :=
        if currentRound p1 = Round4 then
          match certFirstK msg with
          | none => { p1 with panicked := true }
          | some K =>
            if toInt32 K ≥ p1.ki then
              { p1 with s := s, certificate := msg.cert, ki := inner.ki }
            else p1
        else p1
      thenDo p2 fun q =>
        if D.NotificationsCount q.notifyTracker s < threshold q.cfg then q
        else
          { q with
            s := s
            terminationReport := q.terminationReport ++ [{ id := q.instanceId, set := s }]
            closed := true
            terminating := true }

/-- The method `processMsg`. -/
def processMsg (m : HareMessage) (p : ConsensusProcess D) : ConsensusProcess D :=
  match m.message with
  | none => { p with panicked := true }
  | some inner =>
    match inner.type with
    | MessageType.PreRound => processPreRoundMsg m p
    | MessageType.Status => processStatusMsg m p
    | MessageType.Proposal => processProposalMsg m p
    | MessageType.Commit => processCommitMsg m p
    | MessageType.Notify => processNotifyMsg m p
    | MessageType.other _ => p

/-- The call `msg.reportValidationResult(b)`. -/
def reportValidationResult (b : Bool) (p : ConsensusProcess D) : ConsensusProcess D :=
  { p with reports := p.reports ++ [b] }

/-- The validator call `proc.validator.SyntacticallyValidateMessage(m)`. -/
def syntacticallyValid (p : ConsensusProcess D) (m : HareMessage) : Bool :=
  D.SyntacticallyValidateMessage (threshold p.cfg) p.cfg.N (statusValidator p) m

/-- The validator call `proc.validator.ContextuallyValidateMessage(m, k)`. -/
def contextuallyValid (p : ConsensusProcess D) (m : HareMessage) (k : Nat) : Bool :=
  D.ContextuallyValidateMessage (threshold p.cfg) p.cfg.N (statusValidator p) m k

/-- The method `handleMessage`. The log calls of the two rejecting branches evaluate
`m.PubKey`, which panics when the payload `m` is nil. -/
def handleMessage (msg : Message) (p : ConsensusProcess D) : ConsensusProcess D :=
  let m := msg.msg
  if !validateRole p m then
    match m with
    | none => { p with panicked := true }
    | some _ => reportValidationResult false p
  else
    match m with
    | none => { p with panicked := true }
    | some hm =>
      if !syntacticallyValid p hm then reportValidationResult false p
      else
        let p1 := reportValidationResult true p
        if !contextuallyValid p1 hm p1.k then
          if !contextuallyValid p1 hm (toUint32 (p1.k + 1)) then p1
          else onEarlyMessage msg p1
        else processMsg hm p1

/-- The events of a run: a message delivery or one of the three parts of a round tick. -/
inductive Event where
  | deliver (m : Message)
  | roundEnd
  | advance
  | roundBegin

/-- One event applied to a process; a panicked process executes nothing more. -/
def step (e : Event) (p : ConsensusProcess D) : ConsensusProcess D :=
  thenDo p fun q =>
    match e with
    | Event.deliver m => handleMessage m q
    | Event.roundEnd => onRoundEnd q
    | Event.advance => advanceToNextRound q
    | Event.roundBegin => onRoundBegin q

/-- A sequence of events applied from left to right. The event loop runs a tick as the three
events `roundEnd`, `advance`, `roundBegin` in a row and stops at termination or close; `run`
accepts the events in any order and does not stop, so it covers every execution of the loop. -/
def run (es : List Event) (p : ConsensusProcess D) : ConsensusProcess D :=
  es.foldl (fun q e => step e q) p

/-- The three events of one round tick of the event loop. -/
def tick : List Event := [Event.roundEnd, Event.advance, Event.roundBegin]

/-- Whether a message is a Notify. -/
def isNotify (m : HareMessage) : Bool :=
  match m.message with
  | none => false
  | some inner => inner.type = MessageType.Notify

/-- The number of Notify messages in a log of messages. -/
def notifyCount (l : List HareMessage) : Nat := (l.filter isNotify).length

/-! ## A concrete instance of the collaborators

The trackers and the validator below follow the descriptions of sections 4.2 to 4.7 of the
specification. They give concrete inputs on which the handlers can be evaluated. -/

/-- Modelled from the spec: the `PreRoundTracker` (4.3), the pairs `(value, sender)` heard. -/
structure SpecPreRound where
  threshold : Int
  votes : List (Bytes × Bytes)

/-- Modelled from the spec: the `StatusTracker` (4.4), the first status of each sender with
its analysed flag. -/
structure SpecStatus where
  threshold : Int
  statuses : List (Bytes × HareMessage × Bool)

/-- Modelled from the spec: the `ProposalTracker` (4.5), the tracked proposal and the
conflict flag. -/
structure SpecProposal where
  proposal : Option HareMessage
  conflict : Bool

/-- Modelled from the spec: the `CommitTracker` (4.6), the target set and the commits of
distinct senders for it. -/
structure SpecCommit where
  threshold : Int
  target : Option (List Bytes)
  commits : List HareMessage

/-- Modelled from the spec: the `NotifyTracker` (4.7), the pairs `(sender, set)` counted and
the keys `(ki, set)` of the stored certificates. -/
structure SpecNotify where
  seen : List (Bytes × List Bytes)
  certs : List (Int × List Bytes)

/-- The values of a message, empty when the inner message is absent. -/
def valuesOf (m : HareMessage) : List Bytes :=
  match m.message with
  | none => []
  | some inner => inner.values

/-- Modelled from the spec: `OnPreRound` adds the sender to the sender set of each value. -/
def specOnPreRound (t : SpecPreRound) (m : HareMessage) : SpecPreRound :=
  { t with
    votes := (valuesOf m).foldl
      (fun acc v => if (v, m.pubKey) ∈ acc then acc else acc ++ [(v, m.pubKey)]) t.votes }

/-- Modelled from the spec: a value is proven when at least `f+1` senders sent it. -/
def specProven (t : SpecPreRound) (v : Bytes) : Bool :=
  t.threshold ≤ ((t.votes.filter fun e => e.1 = v).length : Int)

/-- Modelled from the spec: `RecordStatus`, first wins per sender. -/
def specRecordStatus (t : SpecStatus) (m : HareMessage) : SpecStatus :=
  if t.statuses.any (fun e => e.1 = m.pubKey) then t
  else { t with statuses := t.statuses ++ [(m.pubKey, m, false)] }

/-- Modelled from the spec: `AnalyzeStatuses` marks the statuses the validator accepts. -/
def specAnalyzeStatuses (t : SpecStatus) (v : HareMessage → Option Bool) : SpecStatus :=
  { t with statuses := t.statuses.map fun e => (e.1, e.2.1, (v e.2.1).getD false) }

/-- Modelled from the spec: the analysed-valid statuses. -/
def specValidStatuses (t : SpecStatus) : List HareMessage :=
  (t.statuses.filter fun e => e.2.2).map fun e => e.2.1

/-- Modelled from the spec: the byte order used to truncate the proposal set. -/
def bytesLe : Bytes → Bytes → Bool
  | [], _ => true
  | _ :: _, [] => false
  | a :: as, b :: bs => a < b || (a = b && bytesLe as bs)

/-- Modelled from the spec: `ProposalSet(capacity)`, the union of the values of the valid
statuses, sorted and truncated. -/
def specProposalSet (t : SpecStatus) (capacity : Int) : List Bytes :=
  ((((specValidStatuses t).map valuesOf).flatten.dedup).insertionSort
    (fun a b => bytesLe a b = true)).take capacity.toNat

/-- Modelled from the spec: `OnProposal` adopts the first proposal and flags a distinct one
as a conflict. -/
def specOnProposal (t : SpecProposal) (m : HareMessage) : SpecProposal :=
  match t.proposal with
  | none => { t with proposal := some m }
  | some cur =>
    if cur.pubKey = m.pubKey ∧ valuesOf cur = valuesOf m then t
    else { t with conflict := true }

/-- Modelled from the spec: `OnLateProposal` only toggles the conflict flag. -/
def specOnLateProposal (t : SpecProposal) (m : HareMessage) : SpecProposal :=
  match t.proposal with
  | none => t
  | some cur =>
    if cur.pubKey = m.pubKey ∧ valuesOf cur = valuesOf m then t
    else { t with conflict := true }

/-- Modelled from the spec: `ProposedSet`, the set of the tracked proposal unless conflicting. -/
def specProposedSet (t : SpecProposal) : Option (List Bytes) :=
  match t.proposal with
  | none => none
  | some cur => if t.conflict then none else some (valuesOf cur)

/-- Modelled from the spec: `OnCommit`, first wins per sender, only for the target set. -/
def specOnCommit (t : SpecCommit) (m : HareMessage) : SpecCommit :=
  match t.target with
  | none => t
  | some target =>
    if valuesOf m = target ∧ ¬ (t.commits.any fun c => c.pubKey = m.pubKey) then
      { t with commits := t.commits ++ [m] }
    else t

/-- Modelled from the spec: `HasEnoughCommits`, at least `f+1` commits. -/
def specHasEnoughCommits (t : SpecCommit) : Bool :=
  t.threshold ≤ (t.commits.length : Int)

/-- Modelled from the spec: `BuildCertificate`, the stored commits, nil if insufficient. -/
def specBuildCertificate (t : SpecCommit) : Option Certificate :=
  if specHasEnoughCommits t then
    some (Certificate.mk (some (AggregatedMessages.mk (t.commits.map some))))
  else none

/-- Modelled from the spec: `OnNotify`, first wins per sender per set; stores the key
`(ki, set)` of the certificate. -/
def specOnNotify (t : SpecNotify) (m : HareMessage) : Bool × SpecNotify :=
  if (m.pubKey, valuesOf m) ∈ t.seen then (true, t)
  else
    (false,
      { seen := t.seen ++ [(m.pubKey, valuesOf m)]
        certs := t.certs ++ [(((m.message.map fun i => i.ki).getD 0), valuesOf m)] })

/-- Modelled from the spec: `NotificationsCount`, the distinct senders counted for a set. -/
def specNotificationsCount (t : SpecNotify) (s : List Bytes) : Int :=
  ((t.seen.filter fun e => e.2 = s).length : Int)

/-- Modelled from the spec: the size of an optional aggregate, zero when absent. -/
def aggSize (a : Option AggregatedMessages) : Int :=
  match a with
  | none => 0
  | some ag => (ag.messages.length : Int)

/-- Modelled from the spec: syntactic validation (4.2): the signature matches the inner
payload, a Proposal carries an SVP and a Notify a certificate of at least `f+1` messages. -/
def specSyntactic (thr : Int) (_N : Int) (_sv : HareMessage → Option Bool)
    (m : HareMessage) : Bool :=
  match m.message with
  | none => false
  | some inner =>
    m.innerSig = inner.roleProof &&
    (match inner.type with
     | MessageType.Proposal => decide (thr ≤ aggSize m.svp)
     | MessageType.Notify => decide (thr ≤ aggSize ((m.cert.map Certificate.aggMsgs).getD none))
     | MessageType.other _ => false
     | _ => true)

/-- Modelled from the spec: contextual validation (4.2) against the round counter `K`. -/
def specContextual (_thr : Int) (_N : Int) (_sv : HareMessage → Option Bool)
    (m : HareMessage) (K : Nat) : Bool :=
  match m.message with
  | none => false
  | some inner =>
    match inner.type with
    | MessageType.PreRound => true
    | MessageType.Status => inner.k = K && K % 4 = Round1
    | MessageType.Proposal => inner.k = K && K % 4 = Round2
    | MessageType.Commit => inner.k = K && K % 4 = Round3
    | MessageType.Notify => inner.k / 4 = K / 4
    | MessageType.other _ => false

/-- A concrete instance of the collaborators: sets are lists of values, identities are
named after the first byte of the public key, every participant is eligible, the signature
of an inner message is its role proof and marshalling never fails. -/
def specDeps : Deps :=
  { HSet := List Bytes
    PreRoundTracker := SpecPreRound
    StatusTracker := SpecStatus
    ProposalTracker := SpecProposal
    CommitTracker := SpecCommit
    NotifyTracker := SpecNotify
    NewSet := fun vs => vs
    setValues := fun s => s
    Clone := fun s => s
    Eligible := fun _ _ _ _ => true
    Sign := fun bs => bs
    signInner := fun inner => inner.roleProof
    verifierBytes := [1]
    verifierString := "1"
    NewVerifier := fun pk => if pk = [] then none else some (String.mk (pk.map Char.ofNat))
    hashU32 := fnv32
    Marshal := fun m => some (m.pubKey ++ m.innerSig)
    SyntacticallyValidateMessage := specSyntactic
    ContextuallyValidateMessage := specContextual
    NewPreRoundTracker := fun thr _ => { threshold := thr, votes := [] }
    OnPreRound := specOnPreRound
    CanProveSet := fun t s => s.all (specProven t)
    FilterSet := fun t s => s.filter (specProven t)
    NewStatusTracker := fun thr _ => { threshold := thr, statuses := [] }
    RecordStatus := specRecordStatus
    AnalyzeStatuses := specAnalyzeStatuses
    IsSVPReady := fun t => t.threshold ≤ ((specValidStatuses t).length : Int)
    ProposalSet := specProposalSet
    BuildSVP := fun t =>
      if t.threshold ≤ ((specValidStatuses t).length : Int) then
        some (AggregatedMessages.mk ((specValidStatuses t).map some))
      else none
    NewProposalTracker := fun _ => { proposal := none, conflict := false }
    OnProposal := specOnProposal
    OnLateProposal := specOnLateProposal
    IsConflicting := fun t => t.conflict
    ProposedSet := specProposedSet
    NewCommitTracker := fun thr _ target => { threshold := thr, target := target, commits := [] }
    OnCommit := specOnCommit
    HasEnoughCommits := specHasEnoughCommits
    BuildCertificate := specBuildCertificate
    NewNotifyTracker := fun _ => { seen := [], certs := [] }
    OnNotify := specOnNotify
    NotificationsCount := specNotificationsCount
    HasCertificate := fun t ki s => decide ((ki, s) ∈ t.certs) }

/-- The configuration `N = 4, F = 1` of the boundary scenarios. -/
def cfg41 : Config := { N := 4, F := 1, SetSize := 8 }

/-- A fresh process of instance `[7]` over the concrete collaborators, starting set `{a}`
with `a = [10]`. -/
def proc0 : ConsensusProcess specDeps :=
  NewConsensusProcess specDeps cfg41 { bytes := [7] } [[10]]

/-- A message of the given sender, type, round counter, `ki`, values and certificate. -/
def mkMsg (sender : Nat) (t : MessageType) (k : Nat) (ki : Int) (values : List Bytes)
    (cert : Option Certificate) : HareMessage :=
  HareMessage.mk [sender] []
    (some { type := t, instanceId := [7], k := k, ki := ki, values := values, roleProof := [] })
    cert none

/-- A certificate made of commit messages of the senders `2` and `3` for the given values at
round counter `k`. -/
def mkCert (k : Nat) (values : List Bytes) : Certificate :=
  Certificate.mk (some (AggregatedMessages.mk
    [some (mkMsg 2 MessageType.Commit k (-1) values none),
     some (mkMsg 3 MessageType.Commit k (-1) values none)]))

/-- A Proposal of sender `2` for the set `{a}` at round counter `1`, carrying an SVP of two
status messages. -/
def proposal2 : HareMessage :=
  HareMessage.mk [2] []
    (some { type := MessageType.Proposal, instanceId := [7], k := 1, ki := -1,
            values := [[10]], roleProof := [] })
    none
    (some (AggregatedMessages.mk
      [some (mkMsg 2 MessageType.Status 0 (-1) [[10]] none),
       some (mkMsg 3 MessageType.Status 0 (-1) [[10]] none)]))

/-- A run in which the process receives a proposal in Round2, begins Round3, receives two
commits for the proposed set and ends Round3. -/
def commitRun : List Event :=
  [Event.advance, Event.deliver ⟨some proposal2⟩, Event.advance, Event.roundBegin,
   Event.deliver ⟨some (mkMsg 2 MessageType.Commit 2 (-1) [[10]] none)⟩,
   Event.deliver ⟨some (mkMsg 3 MessageType.Commit 2 (-1) [[10]] none)⟩,
   Event.roundEnd]

/-! ## Predicates used in the theorems -/

/-- Frame of a handler: it neither hands a Notify to `sendMessage` nor writes `notifySent`
nor `startTime`. -/
def notifyFrame (p q : ConsensusProcess D) : Prop :=
  q.notifySent = p.notifySent ∧ notifyCount q.handed = notifyCount p.handed ∧
  q.startTime = p.startTime

/-- The invariant behind the single Notify: at most one Notify was handed to `sendMessage`,
and if one was, `notifySent` is set or the process panicked while sending it. -/
def notifyInv (p : ConsensusProcess D) : Prop :=
  notifyCount p.handed ≤ 1 ∧
  (notifyCount p.handed = 1 → p.notifySent = true ∨ p.panicked = true)

/-- The certificate `c` certifies the set `s` at iteration `ki`: it carries at least one
message and each of its messages carries exactly the value set `s` and a round counter of
iteration `ki`. -/
def certifies (D : Deps) (c : Certificate) (s : D.HSet) (ki : Int) : Prop :=
  ∃ a, c.aggMsgs = some a ∧ a.messages ≠ [] ∧
    ∀ om ∈ a.messages, ∃ m inner, om = some m ∧ m.message = some inner ∧
      D.NewSet inner.values = s ∧ ((iterationFromCounter inner.k : Nat) : Int) = ki

/-- The state predicate: if `ki >= 0` then the certificate is present and certifies `s` at
iteration `ki`. -/
def certInv (p : ConsensusProcess D) : Prop :=
  0 ≤ p.ki → ∃ c, p.certificate = some c ∧ certifies D c p.s p.ki

/-- The Round4 block of `processNotifyMsg`: the state update guarded by the certificate. -/
def notifyUpdate (msg : HareMessage) (inner : InnerMessage) (p1 : ConsensusProcess D) :
    ConsensusProcess D :=
  if currentRound p1 = Round4 then
    match certFirstK msg with
    | none => { p1 with panicked := true }
    | some K =>
      if toInt32 K ≥ p1.ki then
        { p1 with s := D.NewSet inner.values, certificate := msg.cert, ki := inner.ki }
      else p1
  else p1

/-- The last block of `processNotifyMsg`: termination once enough notifications are counted. -/
def notifyFinish (s : D.HSet) (q : ConsensusProcess D) : ConsensusProcess D :=
  if D.NotificationsCount q.notifyTracker s < threshold q.cfg then q
  else
    { q with
      s := s
      terminationReport := q.terminationReport ++ [{ id := q.instanceId, set := s }]
      closed := true
      terminating := true }

/-- The round counter of the first message of a certificate, when there is one. -/
def certK (c : Certificate) : Option Nat :=
  match c.aggMsgs with
  | none => none
  | some a =>
    match a.messages with
    | some m0 :: _ => m0.message.map InnerMessage.k
    | _ => none

/-- A Notify of sender `2` for `{a}` with `ki = 0`, certified by commits of round counter 2. -/
def notifyA : HareMessage :=
  mkMsg 2 MessageType.Notify 3 0 [[10]] (some (mkCert 2 [[10]]))

/-- A Proposal of sender `2` for the set `{b}`, `b = [20]`, at round counter `5`. -/
def proposalB : HareMessage :=
  HareMessage.mk [2] []
    (some { type := MessageType.Proposal, instanceId := [7], k := 5, ki := -1,
            values := [[20]], roleProof := [] })
    none
    (some (AggregatedMessages.mk
      [some (mkMsg 2 MessageType.Status 4 (-1) [[20]] none),
       some (mkMsg 3 MessageType.Status 4 (-1) [[20]] none)]))

/-- A run of the fresh process: in Round4 of iteration 0 it adopts `{a}` with `ki = 0` from
`notifyA`; in iteration 1 it receives a proposal for `{b}` and two commits for it, up to the
end of Round3. -/
def c5events : List Event :=
  [Event.advance, Event.advance, Event.advance, Event.deliver ⟨some notifyA⟩] ++ tick ++ tick ++
  [Event.deliver ⟨some proposalB⟩] ++ tick ++
  [Event.deliver ⟨some (mkMsg 2 MessageType.Commit 6 (-1) [[20]] none)⟩,
   Event.deliver ⟨some (mkMsg 3 MessageType.Commit 6 (-1) [[20]] none)⟩]

/-- A Notify of sender `2` for `{b}` with `ki = 0` whose certificate is over `{b}` with commits
of round counter 6 (iteration 1). -/
def notifyB0 : HareMessage :=
  mkMsg 2 MessageType.Notify 7 0 [[20]] (some (mkCert 6 [[20]]))

/-- A Notify of sender `2` for `{b}` with `ki = 1` whose certificate is over `{b}` with commits
of round counter 6 (iteration 1). -/
def notifyB1 : HareMessage :=
  mkMsg 2 MessageType.Notify 7 1 [[20]] (some (mkCert 6 [[20]]))

/-- The fresh process at round counter 7 (Round4 of iteration 1). -/
def proc7 : ConsensusProcess specDeps := { proc0 with k := 7 }

/-- A process in Round4 of iteration 5 (`k = 23`) that committed `{a}` with `ki = 5`. -/
def c4state : ConsensusProcess specDeps :=
  { proc0 with k := 23, ki := 5, s := [[10]], certificate := some (mkCert 22 [[10]]) }

/-- A Notify of sender `2` for `{b}` with `ki = 0`, certified by commits of round counter 6. -/
def c4msg : HareMessage :=
  mkMsg 2 MessageType.Notify 23 0 [[20]] (some (mkCert 6 [[20]]))

/-- A Notify of sender `3` for `{b}` with `ki = 1`, certified by commits of round counter 6. -/
def notifyB3 : HareMessage :=
  mkMsg 3 MessageType.Notify 7 1 [[20]] (some (mkCert 6 [[20]]))

/-- The fresh process at round counter 7 after it handled the Notify of sender `3`. -/
def proc7n : ConsensusProcess specDeps := handleMessage ⟨some notifyB3⟩ proc7

/-- The 32-bit FNV-1 hash in the words of the specification: starting from the offset basis,
for each byte multiply by the prime modulo `2^32`, then xor the byte. -/
def specFnv1 : Nat → Bytes → Nat
  | h, [] => h
  | h, b :: bs => specFnv1 (Nat.xor (h * 16777619 % 4294967296) b) bs

/-- The number a byte string encodes in little-endian order. -/
def leValue (bs : Bytes) : Nat := bs.foldr (fun b acc => b + 256 * acc) 0

/-- A Status message of sender `2` for `{a}` with `ki = -1` at round counter 0. -/
def statusA : HareMessage := mkMsg 2 MessageType.Status 0 (-1) [[10]] none

/-- The trackers the round handlers dereference are present: the status tracker in Round1,
the proposal tracker in Round2 and Round3, the commit tracker in Round3. -/
def roundReady (p : ConsensusProcess D) : Prop :=
  (currentRound p = Round1 → p.statusesTracker.isSome = true) ∧
  (currentRound p = Round2 → p.proposalTracker.isSome = true) ∧
  (currentRound p = Round3 →
    p.proposalTracker.isSome = true ∧ p.commitTracker.isSome = true)

/-- A handler that keeps the round counter and keeps each of the three round trackers
present or absent as it was. -/
def sameRound (p q : ConsensusProcess D) : Prop :=
  q.k = p.k ∧
  q.statusesTracker.isSome = p.statusesTracker.isSome ∧
  q.proposalTracker.isSome = p.proposalTracker.isSome ∧
  q.commitTracker.isSome = p.commitTracker.isSome

/-- The process has panicked or the trackers of the current round are present. -/
def readyOrPanicked (p : ConsensusProcess D) : Prop :=
  p.panicked = true ∨ roundReady p

/-- The last statements of `onRoundBegin`: `pending` is swapped for a fresh map and the
stashed messages are written to the inbox. -/
def pendingSwap (p1 : ConsensusProcess D) : ConsensusProcess D :=
  thenDo p1 fun q => handlePending q.pending { q with pending := [] }

/-- The round cadence of the event loop: the first `onRoundBegin`, then `n` round ticks. -/
def cadence (n : Nat) : List Event :=
  Event.roundBegin :: (List.replicate n tick).flatten

/-- The events of the event loop: the deliveries `pre` of the pre-round phase, the first
`onRoundBegin`, then for each element of `rounds` its deliveries followed by a round tick. -/
def loopEvents (pre : List Message) (rounds : List (List Message)) : List Event :=
  pre.map Event.deliver ++ [Event.roundBegin] ++
    (rounds.map fun ms => ms.map Event.deliver ++ tick).flatten

/-- Every tracker a round handler dereferences from the state `q` up to the next
`onRoundBegin` is present when used: the status tracker at `endOfRound1` (on `q`) and at
`beginRound2` (on the state after `onRoundEnd` and `advanceToNextRound`), the proposal
tracker at `beginRound3` and `endOfRound3`, the commit tracker at `endOfRound3`. -/
def trackersPresentWhenUsed (q : ConsensusProcess D) : Prop :=
  (currentRound q = Round1 →
    q.statusesTracker.isSome = true ∧
    (advanceToNextRound (onRoundEnd q)).statusesTracker.isSome = true) ∧
  (currentRound q = Round2 →
    (advanceToNextRound (onRoundEnd q)).proposalTracker.isSome = true) ∧
  (currentRound q = Round3 →
    q.proposalTracker.isSome = true ∧ q.commitTracker.isSome = true)

/-- The process `proc0` after the early Proposal `proposal2` was stashed. -/
def procStash : ConsensusProcess specDeps := handleMessage ⟨some proposal2⟩ proc0

/-- The state of the run `commitRun` before its last event, the end of Round3. -/
def procCommits : ConsensusProcess specDeps := run (commitRun.take 6) proc0

/-- The state of the run `commitRun` before Round3 begins. -/
def procProposed : ConsensusProcess specDeps := run (commitRun.take 3) proc0

/-- The values of the first message of a certificate, when there is one. -/
def certValues (c : Certificate) : Option (List Bytes) :=
  match c.aggMsgs with
  | none => none
  | some a =>
    match a.messages with
    | some m0 :: _ => m0.message.map InnerMessage.values
    | _ => none

/-- A Notify of sender `2` for `{b}` at round counter 6 with `ki = 1`, certified by commits of
round counter 6 (iteration 1). -/
def notifyC2 : HareMessage :=
  mkMsg 2 MessageType.Notify 6 1 [[20]] (some (mkCert 6 [[20]]))

/-- The same Notify sent by sender `3`. -/
def notifyC3 : HareMessage :=
  mkMsg 3 MessageType.Notify 6 1 [[20]] (some (mkCert 6 [[20]]))

/-- A run of the fresh process: in Round4 of iteration 0 it adopts `{a}` with `ki = 0` from
`notifyA`; in Round3 of iteration 1 (`k = 6`) it counts the Notify of sender `2` for `{b}`. -/
def c5termEvents : List Event :=
  [Event.advance, Event.advance, Event.advance, Event.deliver ⟨some notifyA⟩] ++
  tick ++ tick ++ tick ++ [Event.deliver ⟨some notifyC2⟩]

/-- A Proposal of sender `2` with no values at round counter `1`, carrying an SVP of two
status messages with no values. -/
def proposalEmpty : HareMessage :=
  HareMessage.mk [2] []
    (some { type := MessageType.Proposal, instanceId := [7], k := 1, ki := -1,
            values := [], roleProof := [] })
    none
    (some (AggregatedMessages.mk
      [some (mkMsg 2 MessageType.Status 0 (-1) [] none),
       some (mkMsg 3 MessageType.Status 0 (-1) [] none)]))

/-- The fresh process after it received the Proposal `proposalEmpty` in Round2 and advanced
to round counter 2, before Round3 begins. -/
def procEmptyProposed : ConsensusProcess specDeps :=
  run [Event.advance, Event.deliver ⟨some proposalEmpty⟩, Event.advance] proc0

/-- A PreRound message of sender `2` for `{a}`. -/
def preRoundA : HareMessage := mkMsg 2 MessageType.PreRound 0 (-1) [[10]] none

/-! # Theorems -/

/-! ## The round counter -/

/-- C2 (counterexample): at the largest value of the 32-bit round counter,
`k = 4294967295`, `advanceToNextRound` wraps to `0`, which is not greater than `k`. -/
theorem advanceToNextRound_wraps :
    ¬ (({ proc0 with k := 4294967295 } : ConsensusProcess specDeps).k <
        (advanceToNextRound ({ proc0 with k := 4294967295 } : ConsensusProcess specDeps)).k) := by
  decide

/-- C2 (amended): for every process state whose round counter is below `2^32 - 1`,
`advanceToNextRound` yields `k + 1`, strictly greater than `k`, and changes nothing else; at
`k = 2^32 - 1` the counter wraps to `0`. -/
theorem advanceToNextRound_increases (p : ConsensusProcess D) :
    (p.k < 4294967295 →
      (advanceToNextRound p).k = p.k + 1 ∧ p.k < (advanceToNextRound p).k) ∧
    (p.k = 4294967295 → (advanceToNextRound p).k = 0) ∧
    advanceToNextRound p = { p with k := (advanceToNextRound p).k } := by
  refine ⟨?_, ?_, rfl⟩
  · intro h
    have : (advanceToNextRound p).k = p.k + 1 := by
      simp only [advanceToNextRound, toUint32]
      omega
    omega
  · intro h
    simp [advanceToNextRound, toUint32, h]

/-- Witness of the amended C2 on the fresh process `proc0` (`k = 0`). -/
theorem advanceToNextRound_increases_witness :
    (advanceToNextRound proc0).k = proc0.k + 1 ∧ proc0.k < (advanceToNextRound proc0).k :=
  (advanceToNextRound_increases proc0).1 (by decide)

/-! ## Single Notify -/

theorem sendMessage_handed (m : HareMessage) (p : ConsensusProcess D) :
    (sendMessage (some m) p).handed = p.handed ++ [m] := by
  unfold sendMessage
  simp only []
  split
  · rfl
  · split <;> rfl

theorem sendMessage_notifySent (m : Option HareMessage) (p : ConsensusProcess D) :
    (sendMessage m p).notifySent = p.notifySent := by
  unfold sendMessage
  split
  · rfl
  · simp only []
    split
    · rfl
    · split <;> rfl

theorem notifyCount_append (l : List HareMessage) (m : HareMessage) :
    notifyCount (l ++ [m]) = notifyCount l + (if isNotify m then 1 else 0) := by
  unfold notifyCount
  rw [List.filter_append]
  by_cases h : isNotify m = true <;> simp [List.filter, h]

theorem sendMessage_startTime (m : Option HareMessage) (p : ConsensusProcess D) :
    (sendMessage m p).startTime = p.startTime := by
  unfold sendMessage
  split
  · rfl
  · simp only []
    split
    · rfl
    · split <;> rfl

theorem notifyFrame_refl (p : ConsensusProcess D) : notifyFrame p p := ⟨rfl, rfl, rfl⟩

theorem notifyFrame_trans {p q r : ConsensusProcess D} (h1 : notifyFrame p q)
    (h2 : notifyFrame q r) : notifyFrame p r :=
  ⟨h2.1.trans h1.1, h2.2.1.trans h1.2.1, h2.2.2.trans h1.2.2⟩

theorem notifyFrame_thenDo {p q : ConsensusProcess D} {f : ConsensusProcess D → ConsensusProcess D}
    (h1 : notifyFrame p q) (h2 : ∀ r, notifyFrame r (f r)) : notifyFrame p (thenDo q f) := by
  unfold thenDo
  split
  · exact h1
  · exact notifyFrame_trans h1 (h2 q)

theorem notifyFrame_send (m : HareMessage) (p : ConsensusProcess D) (h : isNotify m = false) :
    notifyFrame p (sendMessage (some m) p) := by
  refine ⟨sendMessage_notifySent _ _, ?_, sendMessage_startTime _ _⟩
  rw [sendMessage_handed, notifyCount_append]
  simp [h]

theorem notifyFrame_beginRound1 (p : ConsensusProcess D) : notifyFrame p (beginRound1 p) := by
  unfold beginRound1
  exact notifyFrame_trans (q := { p with statusesTracker := some (D.NewStatusTracker (threshold p.cfg) p.cfg.N) }) ⟨rfl, rfl, rfl⟩ (notifyFrame_send _ _ rfl)

theorem notifyFrame_beginRound2 (p : ConsensusProcess D) : notifyFrame p (beginRound2 p) := by
  unfold beginRound2
  refine notifyFrame_thenDo ?_ (fun r => ⟨rfl, rfl, rfl⟩)
  simp only []
  split
  · split
    · exact ⟨rfl, rfl, rfl⟩
    · split
      · split
        · exact notifyFrame_trans (q := { p with proposalTracker := some (D.NewProposalTracker p.cfg.N) }) ⟨rfl, rfl, rfl⟩ (notifyFrame_send _ _ rfl)
        · exact ⟨rfl, rfl, rfl⟩
      · exact ⟨rfl, rfl, rfl⟩
  · exact ⟨rfl, rfl, rfl⟩

theorem notifyFrame_beginRound3 (p : ConsensusProcess D) : notifyFrame p (beginRound3 p) := by
  unfold beginRound3
  split
  · exact ⟨rfl, rfl, rfl⟩
  · refine notifyFrame_thenDo ?_ (fun r => ⟨rfl, rfl, rfl⟩)
    split
    · exact notifyFrame_trans (q := { p with commitTracker := _ }) ⟨rfl, rfl, rfl⟩ (notifyFrame_send _ _ rfl)
    · exact ⟨rfl, rfl, rfl⟩

theorem notifyFrame_onRoundBegin (p : ConsensusProcess D) : notifyFrame p (onRoundBegin p) := by
  unfold onRoundBegin
  refine notifyFrame_thenDo ?_ (fun r => ⟨rfl, rfl, rfl⟩)
  split_ifs
  · exact notifyFrame_beginRound1 p
  · exact notifyFrame_beginRound2 p
  · exact notifyFrame_beginRound3 p
  · exact ⟨rfl, rfl, rfl⟩
  · exact ⟨rfl, rfl, rfl⟩

theorem notifyFrame_endOfRound1 (p : ConsensusProcess D) : notifyFrame p (endOfRound1 p) := by
  unfold endOfRound1
  split <;> exact ⟨rfl, rfl, rfl⟩

theorem notifyFrame_processNotifyMsg (m : HareMessage) (p : ConsensusProcess D) :
    notifyFrame p (processNotifyMsg m p) := by
  unfold processNotifyMsg
  split
  · exact ⟨rfl, rfl, rfl⟩
  · simp only []
    split
    · exact ⟨rfl, rfl, rfl⟩
    · refine notifyFrame_thenDo ?_ ?_
      · split
        · split
          · exact ⟨rfl, rfl, rfl⟩
          · split <;> exact ⟨rfl, rfl, rfl⟩
        · exact ⟨rfl, rfl, rfl⟩
      · intro r
        split <;> exact ⟨rfl, rfl, rfl⟩

theorem notifyFrame_processMsg (m : HareMessage) (p : ConsensusProcess D) :
    notifyFrame p (processMsg m p) := by
  unfold processMsg
  split
  · exact ⟨rfl, rfl, rfl⟩
  · split
    · exact ⟨rfl, rfl, rfl⟩
    · unfold processStatusMsg; split <;> exact ⟨rfl, rfl, rfl⟩
    · unfold processProposalMsg; split
      · exact ⟨rfl, rfl, rfl⟩
      · split <;> exact ⟨rfl, rfl, rfl⟩
    · unfold processCommitMsg; split <;> exact ⟨rfl, rfl, rfl⟩
    · exact notifyFrame_processNotifyMsg m p
    · exact ⟨rfl, rfl, rfl⟩

theorem notifyFrame_onEarlyMessage (m : Message) (p : ConsensusProcess D) :
    notifyFrame p (onEarlyMessage m p) := by
  unfold onEarlyMessage
  split
  · exact ⟨rfl, rfl, rfl⟩
  · split
    · exact ⟨rfl, rfl, rfl⟩
    · split <;> exact ⟨rfl, rfl, rfl⟩

theorem notifyFrame_handleMessage (m : Message) (p : ConsensusProcess D) :
    notifyFrame p (handleMessage m p) := by
  unfold handleMessage
  simp only []
  split
  · split <;> exact ⟨rfl, rfl, rfl⟩
  · split
    · exact ⟨rfl, rfl, rfl⟩
    · split
      · exact ⟨rfl, rfl, rfl⟩
      · split
        · split
          · exact ⟨rfl, rfl, rfl⟩
          · exact notifyFrame_trans (q := reportValidationResult true p) ⟨rfl, rfl, rfl⟩ (notifyFrame_onEarlyMessage _ _)
        · exact notifyFrame_trans (q := reportValidationResult true p) ⟨rfl, rfl, rfl⟩ (notifyFrame_processMsg _ _)


theorem notifyInv_of_frame {p q : ConsensusProcess D} (h : notifyFrame p q)
    (hp : p.panicked = false) (hi : notifyInv p) : notifyInv q := by
  obtain ⟨h1, h2, -⟩ := h
  obtain ⟨i1, i2⟩ := hi
  refine ⟨by rw [h2]; exact i1, fun hc => ?_⟩
  rw [h2] at hc
  rcases i2 hc with h | h
  · exact Or.inl (by rw [h1]; exact h)
  · rw [hp] at h; cases h

theorem endOfRound3_of_notifySent (p : ConsensusProcess D) (h : p.notifySent = true) :
    endOfRound3 p = p := by
  unfold endOfRound3
  simp [h]

theorem notifyInv_endOfRound3 (p : ConsensusProcess D) (hp : p.panicked = false)
    (hi : notifyInv p) : notifyInv (endOfRound3 p) := by
  unfold endOfRound3
  split
  · exact hi
  · rename_i hns
    split
    · exact ⟨hi.1, fun _ => Or.inr rfl⟩
    · split
      · exact hi
      · split
        · exact ⟨hi.1, fun _ => Or.inr rfl⟩
        · split
          · exact hi
          · split
            · exact hi
            · split
              · exact hi
              · rename_i pt _ ct _ _ cert _ s _
                have h0 : notifyCount p.handed = 0 := by
                  obtain ⟨i1, i2⟩ := hi
                  by_contra hne
                  have h1 : notifyCount p.handed = 1 := by omega
                  rcases i2 h1 with h | h
                  · exact hns h
                  · rw [hp] at h; cases h
                simp only [MessageBuilder.Build]
                unfold thenDo
                split
                · rename_i hpan
                  refine ⟨?_, fun _ => Or.inr hpan⟩
                  rw [sendMessage_handed, notifyCount_append, h0]
                  split <;> omega
                · refine ⟨?_, fun _ => Or.inl rfl⟩
                  show notifyCount (sendMessage _ _).handed ≤ 1
                  rw [sendMessage_handed, notifyCount_append, h0]
                  split <;> omega

theorem notifyFrame_onRoundEnd_other (p : ConsensusProcess D) (h : currentRound p ≠ Round3) :
    notifyFrame p (onRoundEnd p) := by
  unfold onRoundEnd
  split_ifs
  · exact notifyFrame_endOfRound1 p
  · exact notifyFrame_refl p

theorem notifyInv_step (e : Event) (p : ConsensusProcess D) (hi : notifyInv p) :
    notifyInv (step e p) := by
  unfold step thenDo
  split
  · exact hi
  · rename_i hp
    have hp : p.panicked = false := by simpa using hp
    cases e with
    | deliver m => exact notifyInv_of_frame (notifyFrame_handleMessage m p) hp hi
    | roundEnd =>
      simp only [onRoundEnd]
      split_ifs
      · exact notifyInv_of_frame (notifyFrame_endOfRound1 p) hp hi
      · exact notifyInv_endOfRound3 p hp hi
      · exact hi
    | advance => exact notifyInv_of_frame ⟨rfl, rfl, rfl⟩ hp hi
    | roundBegin => exact notifyInv_of_frame (notifyFrame_onRoundBegin p) hp hi

theorem notifyInv_run (es : List Event) (p : ConsensusProcess D) (hi : notifyInv p) :
    notifyInv (run es p) := by
  induction es generalizing p with
  | nil => exact hi
  | cons e es ih => exact ih (step e p) (notifyInv_step e p hi)

theorem notifyFrame_step_other (e : Event) (p : ConsensusProcess D)
    (h : ¬ (e = Event.roundEnd ∧ currentRound p = Round3)) : notifyFrame p (step e p) := by
  unfold step thenDo
  split
  · exact notifyFrame_refl p
  · cases e with
    | deliver m => exact notifyFrame_handleMessage m p
    | roundEnd => exact notifyFrame_onRoundEnd_other p (fun hr => h ⟨rfl, hr⟩)
    | advance => exact ⟨rfl, rfl, rfl⟩
    | roundBegin => exact notifyFrame_onRoundBegin p

theorem notifySent_step (e : Event) (p : ConsensusProcess D) (h : p.notifySent = true) :
    (step e p).notifySent = true := by
  by_cases hc : e = Event.roundEnd ∧ currentRound p = Round3
  · obtain ⟨he, hr⟩ := hc
    subst he
    unfold step thenDo
    split
    · exact h
    · simp only [onRoundEnd]
      split_ifs
      · rw [(notifyFrame_endOfRound1 p).1]; exact h
      · rw [endOfRound3_of_notifySent p h]; exact h
  · rw [(notifyFrame_step_other e p hc).1]; exact h

theorem endOfRound3_startTime (p : ConsensusProcess D) :
    (endOfRound3 p).startTime = p.startTime := by
  unfold endOfRound3
  split
  · rfl
  · split
    · rfl
    · split
      · rfl
      · split
        · rfl
        · split
          · rfl
          · split
            · rfl
            · split
              · rfl
              · simp only [thenDo]
                split
                · exact sendMessage_startTime _ _
                · exact sendMessage_startTime _ _

theorem step_startTime (e : Event) (p : ConsensusProcess D) :
    (step e p).startTime = p.startTime := by
  by_cases hc : e = Event.roundEnd ∧ currentRound p = Round3
  · obtain ⟨he, hr⟩ := hc
    subst he
    unfold step thenDo
    split
    · rfl
    · simp only [onRoundEnd]
      split_ifs
      · exact (notifyFrame_endOfRound1 p).2.2
      · exact endOfRound3_startTime p
  · exact (notifyFrame_step_other e p hc).2.2

theorem run_startTime (es : List Event) (p : ConsensusProcess D) :
    (run es p).startTime = p.startTime := by
  induction es generalizing p with
  | nil => rfl
  | cons e es ih => exact (ih (step e p)).trans (step_startTime e p)

/-- C3: at most one Notify is built and handed to `sendMessage` per process. Over every
sequence of events (message deliveries and the parts `onRoundEnd`, `advanceToNextRound`,
`onRoundBegin` of round ticks, in any order) from the state made by `NewConsensusProcess`,
the number of Notify messages handed to `sendMessage` is at most 1; only `onRoundEnd` in
Round3 (that is `endOfRound3`) changes that number; `endOfRound3` does nothing once
`notifySent` is true; and no event resets `notifySent`. -/
theorem notify_handed_at_most_once (D : Deps) (cfg : Config) (instanceId : InstanceId) (s : D.HSet)
    (es : List Event) :
    notifyCount (run es (NewConsensusProcess D cfg instanceId s)).handed ≤ 1 ∧
    (∀ (e : Event) (p : ConsensusProcess D),
      notifyCount (step e p).handed ≠ notifyCount p.handed →
        e = Event.roundEnd ∧ currentRound p = Round3) ∧
    (∀ p : ConsensusProcess D, p.notifySent = true → endOfRound3 p = p) ∧
    (∀ (e : Event) (p : ConsensusProcess D), p.notifySent = true →
      (step e p).notifySent = true) := by
  refine ⟨?_, ?_, endOfRound3_of_notifySent, notifySent_step⟩
  · exact (notifyInv_run es _ ⟨by simp [NewConsensusProcess, notifyCount], by simp [NewConsensusProcess, notifyCount]⟩).1
  · intro e p hne
    by_contra hc
    exact hne (notifyFrame_step_other e p hc).2.1

/-- Witness of C3 on the run `commitRun` of the fresh process `proc0`, in which a Notify is
emitted: the number of Notify messages handed over is exactly 1, the bound of the theorem. -/
theorem notify_handed_at_most_once_witness :
    notifyCount (run commitRun proc0).handed ≤ 1 ∧
    notifyCount (run commitRun proc0).handed = 1 :=
  ⟨(notify_handed_at_most_once specDeps cfg41 { bytes := [7] } [[10]] commitRun).1, by decide⟩

/-! ## Notify handling -/

/-- C4 (counterexample): the process `c4state` has `ki = 5`; handling the Notify `c4msg`,
whose `ki` field is `0`, in Round4 changes the process's `ki` (to `0`), because the guard
compares the round counter `6` of the first commit of the certificate with `ki`. -/
theorem processNotifyMsg_updates_with_smaller_ki :
    ∃ inner, c4msg.message = some inner ∧
      (processNotifyMsg c4msg c4state).ki ≠ c4state.ki ∧ ¬ (inner.ki ≥ c4state.ki) ∧
      (handleMessage ⟨some c4msg⟩ c4state).ki ≠ c4state.ki :=
  ⟨_, rfl, by decide, by decide, by decide⟩

theorem threshold_eq (cfg : Config) (h1 : -9223372036854775808 ≤ cfg.F)
    (h2 : cfg.F + 1 < 9223372036854775808) : threshold cfg = cfg.F + 1 := by
  unfold threshold addInt
  omega


theorem processNotifyMsg_some (msg : HareMessage) (inner : InnerMessage)
    (p : ConsensusProcess D) (hm : msg.message = some inner) :
    processNotifyMsg msg p =
      if (D.OnNotify p.notifyTracker msg).1 then
        { p with notifyTracker := (D.OnNotify p.notifyTracker msg).2 }
      else
        thenDo (notifyUpdate msg inner { p with notifyTracker := (D.OnNotify p.notifyTracker msg).2 })
          (notifyFinish (D.NewSet inner.values)) := by
  unfold processNotifyMsg
  simp only [hm]
  rfl

theorem processNotifyMsg_none (msg : HareMessage) (p : ConsensusProcess D)
    (hm : msg.message = none) : processNotifyMsg msg p = { p with panicked := true } := by
  unfold processNotifyMsg
  simp only [hm]

/-- What `notifyUpdate` leaves unchanged. -/
theorem notifyUpdate_frame (msg : HareMessage) (inner : InnerMessage) (p : ConsensusProcess D) :
    (notifyUpdate msg inner p).notifyTracker = p.notifyTracker ∧
    (notifyUpdate msg inner p).cfg = p.cfg ∧
    (notifyUpdate msg inner p).instanceId = p.instanceId ∧
    (notifyUpdate msg inner p).terminationReport = p.terminationReport ∧
    (notifyUpdate msg inner p).terminating = p.terminating ∧
    (notifyUpdate msg inner p).closed = p.closed ∧
    (notifyUpdate msg inner p).k = p.k := by
  unfold notifyUpdate
  split
  · split
    · simp
    · split <;> simp
  · simp

/-- The state fields `notifyUpdate` writes change only under its guard. -/
theorem notifyUpdate_guard (msg : HareMessage) (inner : InnerMessage) (p : ConsensusProcess D) :
    ((notifyUpdate msg inner p).s = p.s ∧ (notifyUpdate msg inner p).ki = p.ki ∧
      (notifyUpdate msg inner p).certificate = p.certificate) ∨
    (currentRound p = Round4 ∧ (∃ K, certFirstK msg = some K ∧ p.ki ≤ toInt32 K) ∧
      (notifyUpdate msg inner p).s = D.NewSet inner.values ∧
      (notifyUpdate msg inner p).ki = inner.ki ∧
      (notifyUpdate msg inner p).certificate = msg.cert ∧
      (notifyUpdate msg inner p).panicked = p.panicked) := by
  unfold notifyUpdate
  split
  · rename_i hr
    split
    · exact Or.inl ⟨rfl, rfl, rfl⟩
    · rename_i K hK
      split
      · rename_i hge
        exact Or.inr ⟨hr, ⟨K, hK, hge⟩, rfl, rfl, rfl, rfl⟩
      · exact Or.inl ⟨rfl, rfl, rfl⟩
  · exact Or.inl ⟨rfl, rfl, rfl⟩

theorem notifyUpdate_panicked (msg : HareMessage) (inner : InnerMessage)
    (p : ConsensusProcess D) (hp : p.panicked = false)
    (hcert : currentRound p = Round4 → ∃ K, certFirstK msg = some K) :
    (notifyUpdate msg inner p).panicked = false := by
  unfold notifyUpdate
  split
  · rename_i hr
    obtain ⟨K, hK⟩ := hcert hr
    simp only [hK]
    split <;> exact hp
  · exact hp

/-- C4 (amended): state updates via Notify are guarded by the certificate, not by the
message's `ki` field. If `ki` or `certificate` differs after `processNotifyMsg`, then the
Notify was not ignored, the process was in Round4 and `int32(K) >= ki` held before the call,
where `K` is the round counter of the first message of the Notify's certificate. If `s`
differs, then the Notify was not ignored and either that guard held or the notification count
of the message's set reached the threshold `F+1` (termination). -/
theorem processNotifyMsg_update_guard (msg : HareMessage) (p : ConsensusProcess D) :
    ((processNotifyMsg msg p).ki ≠ p.ki ∨ (processNotifyMsg msg p).certificate ≠ p.certificate →
      (D.OnNotify p.notifyTracker msg).1 = false ∧ currentRound p = Round4 ∧
      ∃ K, certFirstK msg = some K ∧ p.ki ≤ toInt32 K) ∧
    ((processNotifyMsg msg p).s ≠ p.s →
      (D.OnNotify p.notifyTracker msg).1 = false ∧
      ((currentRound p = Round4 ∧ ∃ K, certFirstK msg = some K ∧ p.ki ≤ toInt32 K) ∨
       ∃ inner, msg.message = some inner ∧
         threshold p.cfg ≤
           D.NotificationsCount (D.OnNotify p.notifyTracker msg).2 (D.NewSet inner.values))) := by
  cases hm : msg.message with
  | none =>
    rw [processNotifyMsg_none msg p hm]
    simp
  | some inner =>
    rw [processNotifyMsg_some msg inner p hm]
    cases hig : (D.OnNotify p.notifyTracker msg).1 with
    | true => simp
    | false =>
      simp only [Bool.false_eq_true, if_false, true_and]
      have hfr := notifyUpdate_frame msg inner
        { p with notifyTracker := (D.OnNotify p.notifyTracker msg).2 }
      have hg := notifyUpdate_guard msg inner
        { p with notifyTracker := (D.OnNotify p.notifyTracker msg).2 }
      obtain ⟨f1, f2, -⟩ := hfr
      unfold thenDo notifyFinish
      rcases hg with ⟨g1, g2, g3⟩ | ⟨gr, gK, -⟩
      · constructor
        · intro h
          exfalso
          revert h
          split
          · simp [g2, g3]
          · split <;> simp [g2, g3]
        · intro h
          right
          refine ⟨inner, rfl, ?_⟩
          revert h
          split
          · simp [g1]
          · split
            · simp [g1]
            · rename_i hlt
              intro _
              rw [f1, f2] at hlt
              exact not_lt.mp hlt
      · exact ⟨fun _ => ⟨gr, gK⟩, fun _ => Or.inl ⟨gr, gK⟩⟩

/-- C8: a duplicate Notify has no effect on the process. Whenever `OnNotify` reports the
message as ignored, `processNotifyMsg` leaves `k`, `ki`, `s`, `certificate`, `notifySent` and
`terminating` unchanged, writes no termination output, does not close the process and hands
no message to `sendMessage`, in every round and for every state. -/
theorem processNotifyMsg_ignored_no_effect (msg : HareMessage) (p : ConsensusProcess D)
    (hign : (D.OnNotify p.notifyTracker msg).1 = true) :
    (processNotifyMsg msg p).k = p.k ∧ (processNotifyMsg msg p).ki = p.ki ∧
    (processNotifyMsg msg p).s = p.s ∧ (processNotifyMsg msg p).certificate = p.certificate ∧
    (processNotifyMsg msg p).notifySent = p.notifySent ∧
    (processNotifyMsg msg p).terminating = p.terminating ∧
    (processNotifyMsg msg p).terminationReport = p.terminationReport ∧
    (processNotifyMsg msg p).closed = p.closed ∧
    (processNotifyMsg msg p).handed = p.handed := by
  cases hm : msg.message with
  | none =>
    rw [processNotifyMsg_none msg p hm]
    simp
  | some inner =>
    rw [processNotifyMsg_some msg inner p hm]
    simp [hign]

/-- C7: for a Notify that the NotifyTracker does not report as ignored, `processNotifyMsg`
terminates the process if and only if `NotificationsCount` of the message's value set, taken
on the tracker after the message was recorded, is at least `F+1`. When it terminates, `s` is
the set of the message's values, exactly one output `(instanceId, that set)` is appended to
the termination channel, `terminating` is set and the process is closed; when it does not,
no output is written and `terminating` is unchanged. In both cases the handler does not
panic. The hypotheses are the ones the handler is called under: the process is running, the
message has an inner message (checked by `validateRole`), in Round4 the expression
`msg.Cert.AggMsgs.Messages[0].Message.K` can be evaluated (the source comment "we assume
that this expression was checked before"), and `F+1` does not overflow the `int` type. -/
theorem processNotifyMsg_terminates_iff (msg : HareMessage) (inner : InnerMessage) (p : ConsensusProcess D)
    (hp : p.panicked = false)
    (hm : msg.message = some inner)
    (hnot : (D.OnNotify p.notifyTracker msg).1 = false)
    (hcert : currentRound p = Round4 → ∃ K, certFirstK msg = some K)
    (hF1 : -9223372036854775808 ≤ p.cfg.F) (hF2 : p.cfg.F + 1 < 9223372036854775808) :
    (processNotifyMsg msg p).panicked = false ∧
    (p.cfg.F + 1 ≤ D.NotificationsCount (D.OnNotify p.notifyTracker msg).2 (D.NewSet inner.values) →
      (processNotifyMsg msg p).s = D.NewSet inner.values ∧
      (processNotifyMsg msg p).terminationReport =
        p.terminationReport ++ [{ id := p.instanceId, set := D.NewSet inner.values }] ∧
      (processNotifyMsg msg p).terminating = true ∧
      (processNotifyMsg msg p).closed = true) ∧
    (D.NotificationsCount (D.OnNotify p.notifyTracker msg).2 (D.NewSet inner.values) < p.cfg.F + 1 →
      (processNotifyMsg msg p).terminationReport = p.terminationReport ∧
      (processNotifyMsg msg p).terminating = p.terminating ∧
      (processNotifyMsg msg p).closed = p.closed) := by
  have hthr := threshold_eq p.cfg hF1 hF2
  rw [processNotifyMsg_some msg inner p hm]
  simp only [hnot, Bool.false_eq_true, if_false]
  have hfr := notifyUpdate_frame msg inner
    { p with notifyTracker := (D.OnNotify p.notifyTracker msg).2 }
  have hpan := notifyUpdate_panicked msg inner
    { p with notifyTracker := (D.OnNotify p.notifyTracker msg).2 } hp hcert
  obtain ⟨f1, f2, f3, f4, f5, f6, -⟩ := hfr
  unfold thenDo notifyFinish
  simp only [hpan, Bool.false_eq_true, if_false, f1, f2, f3, f4, f5, f6, hthr]
  refine ⟨?_, ?_, ?_⟩
  · split <;> first | exact hpan | simp [hpan]
  · intro hge
    rw [if_neg (not_lt.mpr hge)]
    exact ⟨rfl, rfl, rfl, rfl⟩
  · intro hlt
    rw [if_pos hlt]
    exact ⟨f4, f5, f6⟩

theorem certifies_certK {c : Certificate} {s : D.HSet} {ki : Int} (h : certifies D c s ki) :
    ∃ K, certK c = some K ∧ ((iterationFromCounter K : Nat) : Int) = ki := by
  obtain ⟨a, ha, hne, hall⟩ := h
  unfold certK
  rw [ha]
  cases hms : a.messages with
  | nil => exact absurd hms hne
  | cons om rest =>
    obtain ⟨m, inner, hom, hmi, -, hit⟩ := hall om (by rw [hms]; exact List.mem_cons_self _ _)
    subst hom
    exact ⟨inner.k, by simp [hms, hmi], hit⟩

theorem certInv_congr {p q : ConsensusProcess D} (hs : q.s = p.s) (hki : q.ki = p.ki)
    (hc : q.certificate = p.certificate) (h : certInv p) : certInv q := by
  unfold certInv at *
  rw [hs, hki, hc]
  exact h

theorem sendMessage_frame (m : Option HareMessage) (p : ConsensusProcess D) :
    (sendMessage m p).toState = p.toState ∧
    (sendMessage m p).notifySent = p.notifySent ∧
    (sendMessage m p).terminating = p.terminating ∧
    (sendMessage m p).pending = p.pending ∧
    (sendMessage m p).cfg = p.cfg := by
  unfold sendMessage
  split
  · simp
  · simp only []
    split
    · simp
    · split <;> simp

theorem endOfRound3_k_ki (p : ConsensusProcess D) :
    (endOfRound3 p).k = p.k ∧ (endOfRound3 p).ki = p.ki := by
  unfold endOfRound3
  split
  · simp
  · split
    · simp
    · split
      · simp
      · split
        · simp
        · split
          · simp
          · split
            · simp
            · split
              · simp
              · simp only [thenDo]
                split
                · rw [(sendMessage_frame _ _).1]
                  exact ⟨rfl, rfl⟩
                · show (sendMessage _ _).k = p.k ∧ (sendMessage _ _).ki = p.ki
                  rw [show ∀ q : ConsensusProcess D, q.k = q.toState.k from fun _ => rfl,
                    show ∀ q : ConsensusProcess D, q.ki = q.toState.ki from fun _ => rfl,
                    (sendMessage_frame _ _).1]
                  exact ⟨rfl, rfl⟩

theorem certifies_certValues {c : Certificate} {s : D.HSet} {ki : Int}
    (h : certifies D c s ki) : ∃ vals, certValues c = some vals ∧ D.NewSet vals = s := by
  obtain ⟨a, ha, hne, hall⟩ := h
  unfold certValues
  rw [ha]
  cases hms : a.messages with
  | nil => exact absurd hms hne
  | cons om rest =>
    obtain ⟨m, inner, hom, hmi, hv, -⟩ := hall om (by rw [hms]; exact List.mem_cons_self _ _)
    subst hom
    exact ⟨inner.values, by simp [hms, hmi], hv⟩

/-- C5 (counterexample): the writers break the predicate. The state reached by the run
`c5events` satisfies it (`ki = 0`, `s = {a}`, certificate over `{a}` of iteration 0), and
`endOfRound3` then commits `{b}` with a certificate of iteration 1 while `ki` stays `0`. The
fresh process at `k = 7` satisfies it, and `processNotifyMsg` on the Notify `notifyB0`, whose
certificate is over its own value set `{b}` but of iteration 1 while its `ki` field is `0`,
leaves `ki = 0` with that certificate. The state reached by the run `c5termEvents` satisfies
it (`ki = 0`, `s = {a}`), and in Round3 the second Notify for `{b}` terminates the process
with `s = {b}` while the certificate is still the one over `{a}`. -/
theorem certInv_broken_by_writers :
    (certInv (run c5events proc0) ∧ ¬ certInv (endOfRound3 (run c5events proc0))) ∧
    (certInv proc7 ∧ ¬ certInv (processNotifyMsg notifyB0 proc7)) ∧
    (certInv (run c5termEvents proc0) ∧
      ¬ certInv (processNotifyMsg notifyC3 (run c5termEvents proc0))) := by
  refine ⟨⟨?_, ?_⟩, ⟨?_, ?_⟩, ?_, ?_⟩
  · intro _
    refine ⟨mkCert 2 [[10]], rfl, AggregatedMessages.mk _, rfl, by simp [AggregatedMessages.messages], ?_⟩
    intro om hom
    simp only [AggregatedMessages.messages, List.mem_cons, List.mem_singleton, List.not_mem_nil, or_false] at hom
    rcases hom with h | h <;> subst h <;> exact ⟨_, _, rfl, rfl, rfl, by decide⟩
  · intro h
    obtain ⟨c, hc, hcert⟩ := h (by decide)
    have hc' : (endOfRound3 (run c5events proc0)).certificate = some (mkCert 6 [[20]]) := by rfl
    rw [hc'] at hc
    cases hc
    obtain ⟨K, hK, hit⟩ := certifies_certK hcert
    have hK' : certK (mkCert 6 [[20]]) = some 6 := rfl
    rw [hK'] at hK
    cases hK
    have hki : (endOfRound3 (run c5events proc0)).ki = 0 := by decide
    rw [hki] at hit
    revert hit
    decide
  · intro h
    exact absurd h (by decide)
  · intro h
    obtain ⟨c, hc, hcert⟩ := h (by decide)
    have hc' : (processNotifyMsg notifyB0 proc7).certificate = some (mkCert 6 [[20]]) := by rfl
    rw [hc'] at hc
    cases hc
    obtain ⟨K, hK, hit⟩ := certifies_certK hcert
    have hK' : certK (mkCert 6 [[20]]) = some 6 := rfl
    rw [hK'] at hK
    cases hK
    have hki : (processNotifyMsg notifyB0 proc7).ki = 0 := by decide
    rw [hki] at hit
    revert hit
    decide
  · intro _
    refine ⟨mkCert 2 [[10]], rfl, AggregatedMessages.mk _, rfl,
      by simp [AggregatedMessages.messages], ?_⟩
    intro om hom
    simp only [AggregatedMessages.messages, List.mem_cons, List.mem_singleton,
      List.not_mem_nil, or_false] at hom
    rcases hom with h | h <;> subst h <;> exact ⟨_, _, rfl, rfl, rfl, by decide⟩
  · intro h
    obtain ⟨c, hc, hcert⟩ := h (by decide)
    have hc' : (processNotifyMsg notifyC3 (run c5termEvents proc0)).certificate =
        some (mkCert 2 [[10]]) := by rfl
    rw [hc'] at hc
    cases hc
    obtain ⟨vals, hv, hs⟩ := certifies_certValues hcert
    have hv' : certValues (mkCert 2 [[10]]) = some [[10]] := rfl
    rw [hv'] at hv
    cases hv
    have hs' : (processNotifyMsg notifyC3 (run c5termEvents proc0)).s =
        specDeps.NewSet [[20]] := by rfl
    rw [hs'] at hs
    have : ([[10]] : List Bytes) = [[20]] := hs
    revert this
    decide

/-- Witness of the amended C4 on `c4state` and `c4msg`: `ki` changes, and the guard on the
certificate's round counter held. -/
theorem processNotifyMsg_update_guard_witness :
    (specDeps.OnNotify c4state.notifyTracker c4msg).1 = false ∧ currentRound c4state = Round4 ∧
      ∃ K, certFirstK c4msg = some K ∧ c4state.ki ≤ toInt32 K :=
  (processNotifyMsg_update_guard c4msg c4state).1 (Or.inl (by decide))

/-- Witness of C7: the process `proc7n` has counted the Notify of sender `3` for `{b}`; the
Notify of sender `2` for `{b}` brings the count to `2 = F+1`, and the process terminates
with `{b}` and one output. -/
theorem processNotifyMsg_terminates_iff_witness :
    (processNotifyMsg notifyB1 proc7n).terminating = true ∧
    (processNotifyMsg notifyB1 proc7n).s = specDeps.NewSet [[20]] ∧
    (processNotifyMsg notifyB1 proc7n).terminationReport.length = 1 :=
  ⟨((processNotifyMsg_terminates_iff notifyB1 _ proc7n (by decide) rfl (by decide)
      (fun _ => ⟨6, rfl⟩) (by decide) (by decide)).2.1 (by decide)).2.2.1,
   ((processNotifyMsg_terminates_iff notifyB1 _ proc7n (by decide) rfl (by decide)
      (fun _ => ⟨6, rfl⟩) (by decide) (by decide)).2.1 (by decide)).1,
   by decide⟩

/-- Witness of C8: the Notify of sender `3` delivered a second time to `proc7n` is ignored
and changes nothing. -/
theorem processNotifyMsg_ignored_no_effect_witness :
    (processNotifyMsg notifyB3 proc7n).ki = proc7n.ki ∧
    (processNotifyMsg notifyB3 proc7n).terminating = proc7n.terminating ∧
    (processNotifyMsg notifyB3 proc7n).terminationReport = proc7n.terminationReport :=
  ⟨(processNotifyMsg_ignored_no_effect notifyB3 proc7n (by decide)).2.1,
   (processNotifyMsg_ignored_no_effect notifyB3 proc7n (by decide)).2.2.2.2.2.1,
   (processNotifyMsg_ignored_no_effect notifyB3 proc7n (by decide)).2.2.2.2.2.2.1⟩

/-! ## Message handling -/

/-- The fields `pending` and `reports` are not written by `notifyUpdate`. -/
theorem notifyUpdate_frame2 (msg : HareMessage) (inner : InnerMessage) (p : ConsensusProcess D) :
    (notifyUpdate msg inner p).pending = p.pending ∧
    (notifyUpdate msg inner p).reports = p.reports := by
  unfold notifyUpdate
  split
  · split
    · simp
    · split <;> simp
  · simp

theorem processNotifyMsg_frame (msg : HareMessage) (p : ConsensusProcess D) :
    (processNotifyMsg msg p).pending = p.pending ∧
    (processNotifyMsg msg p).reports = p.reports := by
  cases hm : msg.message with
  | none =>
    rw [processNotifyMsg_none msg p hm]
    simp
  | some inner =>
    rw [processNotifyMsg_some msg inner p hm]
    have h := notifyUpdate_frame2 msg inner
      { p with notifyTracker := (D.OnNotify p.notifyTracker msg).2 }
    unfold thenDo notifyFinish
    split
    · simp
    · split
      · exact h
      · split
        · exact h
        · exact h

theorem processMsg_frame (m : HareMessage) (p : ConsensusProcess D) :
    (processMsg m p).pending = p.pending ∧ (processMsg m p).reports = p.reports := by
  unfold processMsg
  split
  · simp
  · split
    · simp [processPreRoundMsg]
    · unfold processStatusMsg; split <;> simp
    · unfold processProposalMsg; split
      · simp
      · split <;> simp
    · unfold processCommitMsg; split <;> simp
    · exact processNotifyMsg_frame m p
    · simp

theorem onEarlyMessage_reports (m : Message) (p : ConsensusProcess D) :
    (onEarlyMessage m p).reports = p.reports := by
  unfold onEarlyMessage
  split
  · rfl
  · split
    · rfl
    · split <;> rfl

theorem notifyUpdate_trackers (msg : HareMessage) (inner : InnerMessage)
    (p : ConsensusProcess D) :
    (notifyUpdate msg inner p).preRoundTracker = p.preRoundTracker ∧
    (notifyUpdate msg inner p).statusesTracker = p.statusesTracker ∧
    (notifyUpdate msg inner p).proposalTracker = p.proposalTracker ∧
    (notifyUpdate msg inner p).commitTracker = p.commitTracker := by
  unfold notifyUpdate
  split
  · split
    · exact ⟨rfl, rfl, rfl, rfl⟩
    · split <;> exact ⟨rfl, rfl, rfl, rfl⟩
  · exact ⟨rfl, rfl, rfl, rfl⟩

theorem processNotifyMsg_trackers (msg : HareMessage) (inner : InnerMessage)
    (p : ConsensusProcess D) (hm : msg.message = some inner) :
    (processNotifyMsg msg p).notifyTracker = (D.OnNotify p.notifyTracker msg).2 ∧
    (processNotifyMsg msg p).preRoundTracker = p.preRoundTracker ∧
    (processNotifyMsg msg p).statusesTracker = p.statusesTracker ∧
    (processNotifyMsg msg p).proposalTracker = p.proposalTracker ∧
    (processNotifyMsg msg p).commitTracker = p.commitTracker := by
  rw [processNotifyMsg_some msg inner p hm]
  have f := notifyUpdate_frame msg inner
    { p with notifyTracker := (D.OnNotify p.notifyTracker msg).2 }
  have t := notifyUpdate_trackers msg inner
    { p with notifyTracker := (D.OnNotify p.notifyTracker msg).2 }
  split
  · exact ⟨rfl, rfl, rfl, rfl, rfl⟩
  · unfold thenDo notifyFinish
    split
    · exact ⟨f.1, t.1, t.2.1, t.2.2.1, t.2.2.2⟩
    · split
      · exact ⟨f.1, t.1, t.2.1, t.2.2.1, t.2.2.2⟩
      · exact ⟨f.1, t.1, t.2.1, t.2.2.1, t.2.2.2⟩

/-- What `processMsg` does to the trackers, by message type. -/
theorem processMsg_effects (m : HareMessage) (inner : InnerMessage) (q : ConsensusProcess D)
    (hin : m.message = some inner) :
    (inner.type = MessageType.PreRound →
      processMsg m q = { q with preRoundTracker := D.OnPreRound q.preRoundTracker m }) ∧
    (inner.type = MessageType.Status →
      (∀ st, q.statusesTracker = some st →
        processMsg m q = { q with statusesTracker := some (D.RecordStatus st m) }) ∧
      (q.statusesTracker = none → processMsg m q = { q with panicked := true })) ∧
    (inner.type = MessageType.Proposal →
      (∀ pt, q.proposalTracker = some pt →
        processMsg m q =
          { q with
            proposalTracker :=
              some (if currentRound q = Round2 then D.OnProposal pt m
                    else D.OnLateProposal pt m) }) ∧
      (q.proposalTracker = none → processMsg m q = { q with panicked := true })) ∧
    (inner.type = MessageType.Commit →
      (∀ ct, q.commitTracker = some ct →
        processMsg m q = { q with commitTracker := some (D.OnCommit ct m) }) ∧
      (q.commitTracker = none → processMsg m q = { q with panicked := true })) ∧
    (inner.type = MessageType.Notify →
      (processMsg m q).notifyTracker = (D.OnNotify q.notifyTracker m).2 ∧
      (processMsg m q).preRoundTracker = q.preRoundTracker ∧
      (processMsg m q).statusesTracker = q.statusesTracker ∧
      (processMsg m q).proposalTracker = q.proposalTracker ∧
      (processMsg m q).commitTracker = q.commitTracker) ∧
    (∀ n, inner.type = MessageType.other n → processMsg m q = q) := by
  unfold processMsg
  simp only [hin]
  refine ⟨?_, ?_, ?_, ?_, ?_, ?_⟩
  · intro h
    simp only [h]
    rfl
  · intro h
    simp only [h]
    unfold processStatusMsg
    refine ⟨fun st hst => ?_, fun hst => ?_⟩
    · simp only [hst]
    · simp only [hst]
  · intro h
    simp only [h]
    unfold processProposalMsg
    refine ⟨fun pt hpt => ?_, fun hpt => ?_⟩
    · simp only [hpt]
      split <;> rfl
    · simp only [hpt]
  · intro h
    simp only [h]
    unfold processCommitMsg
    refine ⟨fun ct hct => ?_, fun hct => ?_⟩
    · simp only [hct]
    · simp only [hct]
  · intro h
    simp only [h]
    exact processNotifyMsg_trackers m inner q hin
  · intro n h
    simp only [h]

/-- C9: for every message that passes role and syntactic validation, `handleMessage` does
exactly one of three things, after reporting the validation result `true`. If contextual
validation passes for `k`, the message is dispatched by type to its tracker and `pending` is
unchanged: a PreRound goes to `OnPreRound` of the PreRoundTracker, a Status to
`RecordStatus` of the StatusTracker, a Proposal to `OnProposal` (in Round2) or
`OnLateProposal` (otherwise) of the ProposalTracker, a Commit to `OnCommit` of the
CommitTracker, a Notify to `OnNotify` of the NotifyTracker (with the other trackers
unchanged), each result replacing the tracker and nothing else changing; an absent tracker
is a panic, a message of another type changes nothing. Otherwise, if contextual validation
passes for `k + 1` (in `uint32` arithmetic), nothing but `pending` changes: the message is
stored under its sender's identity when `pending` has no entry for that sender, and an
existing entry is kept. Otherwise nothing changes. -/
theorem handleMessage_three_way (msg : Message) (hm : HareMessage) (p : ConsensusProcess D)
    (hmsg : msg.msg = some hm)
    (hrole : validateRole p (some hm) = true)
    (hsyn : syntacticallyValid p hm = true) :
    (contextuallyValid p hm p.k = true →
      handleMessage msg p = processMsg hm (reportValidationResult true p) ∧
      (handleMessage msg p).pending = p.pending ∧
      (∀ inner, hm.message = some inner →
        (inner.type = MessageType.PreRound →
          handleMessage msg p = processPreRoundMsg hm (reportValidationResult true p)) ∧
        (inner.type = MessageType.Status →
          handleMessage msg p = processStatusMsg hm (reportValidationResult true p)) ∧
        (inner.type = MessageType.Proposal →
          handleMessage msg p = processProposalMsg hm (reportValidationResult true p)) ∧
        (inner.type = MessageType.Commit →
          handleMessage msg p = processCommitMsg hm (reportValidationResult true p)) ∧
        (inner.type = MessageType.Notify →
          handleMessage msg p = processNotifyMsg hm (reportValidationResult true p)) ∧
        (∀ n, inner.type = MessageType.other n →
          handleMessage msg p = reportValidationResult true p)) ∧
      (∀ inner, hm.message = some inner →
        (inner.type = MessageType.PreRound →
          handleMessage msg p =
            { reportValidationResult true p with
              preRoundTracker := D.OnPreRound p.preRoundTracker hm }) ∧
        (inner.type = MessageType.Status →
          (∀ st, p.statusesTracker = some st →
            handleMessage msg p =
              { reportValidationResult true p with
                statusesTracker := some (D.RecordStatus st hm) }) ∧
          (p.statusesTracker = none →
            handleMessage msg p = { reportValidationResult true p with panicked := true })) ∧
        (inner.type = MessageType.Proposal →
          (∀ pt, p.proposalTracker = some pt →
            handleMessage msg p =
              { reportValidationResult true p with
                proposalTracker :=
                  some (if currentRound p = Round2 then D.OnProposal pt hm
                        else D.OnLateProposal pt hm) }) ∧
          (p.proposalTracker = none →
            handleMessage msg p = { reportValidationResult true p with panicked := true })) ∧
        (inner.type = MessageType.Commit →
          (∀ ct, p.commitTracker = some ct →
            handleMessage msg p =
              { reportValidationResult true p with
                commitTracker := some (D.OnCommit ct hm) }) ∧
          (p.commitTracker = none →
            handleMessage msg p = { reportValidationResult true p with panicked := true })) ∧
        (inner.type = MessageType.Notify →
          (handleMessage msg p).notifyTracker = (D.OnNotify p.notifyTracker hm).2 ∧
          (handleMessage msg p).preRoundTracker = p.preRoundTracker ∧
          (handleMessage msg p).statusesTracker = p.statusesTracker ∧
          (handleMessage msg p).proposalTracker = p.proposalTracker ∧
          (handleMessage msg p).commitTracker = p.commitTracker))) ∧
    (contextuallyValid p hm p.k = false →
      contextuallyValid p hm (toUint32 (p.k + 1)) = true →
      ∃ sender, D.NewVerifier hm.pubKey = some sender ∧
        handleMessage msg p =
          { reportValidationResult true p with
            pending :=
              if (p.pending.lookup sender).isSome then p.pending
              else p.pending ++ [(sender, msg)] }) ∧
    (contextuallyValid p hm p.k = false →
      contextuallyValid p hm (toUint32 (p.k + 1)) = false →
      handleMessage msg p = reportValidationResult true p) := by
  have hc : ∀ k, contextuallyValid (reportValidationResult true p) hm k =
      contextuallyValid p hm k := fun _ => rfl
  have hk : (reportValidationResult true p).k = p.k := rfl
  have hH : handleMessage msg p =
      if !contextuallyValid p hm p.k then
        if !contextuallyValid p hm (toUint32 (p.k + 1)) then reportValidationResult true p
        else onEarlyMessage msg (reportValidationResult true p)
      else processMsg hm (reportValidationResult true p) := by
    unfold handleMessage
    simp only [hmsg, hrole, hsyn, hc, hk]
    rfl
  refine ⟨?_, ?_, ?_⟩
  · intro h1
    have hE : handleMessage msg p = processMsg hm (reportValidationResult true p) := by
      rw [hH]; simp [h1]
    refine ⟨hE, ?_, ?_, ?_⟩
    · rw [hE, (processMsg_frame _ _).1]; rfl
    · intro inner hin
      rw [hE]
      unfold processMsg
      simp only [hin]
      refine ⟨?_, ?_, ?_, ?_, ?_, ?_⟩ <;> intro h <;> (try intro h') <;> simp_all
    · intro inner hin
      rw [hE]
      have e := processMsg_effects hm inner (reportValidationResult true p) hin
      exact ⟨e.1, e.2.1, e.2.2.1, e.2.2.2.1, e.2.2.2.2.1⟩
  · intro h1 h2
    have hE : handleMessage msg p = onEarlyMessage msg (reportValidationResult true p) := by
      rw [hH]; simp [h1, h2]
    cases hv : D.NewVerifier hm.pubKey with
    | none =>
      exfalso
      unfold validateRole at hrole
      simp only [hv] at hrole
      revert hrole
      split <;> simp
    | some sender =>
      refine ⟨sender, rfl, ?_⟩
      rw [hE]
      unfold onEarlyMessage
      simp only [hmsg, hv]
      split
      · rename_i hl
        have hl' : (List.lookup sender p.pending).isSome = true := hl
        rw [if_pos hl']
        rfl
      · rename_i hl
        have hl' : ¬ (List.lookup sender p.pending).isSome = true := hl
        rw [if_neg hl']
        rfl
  · intro h1 h2
    rw [hH]; simp [h1, h2]

/-- C10: for every wrapper carrying a payload, `handleMessage` reports exactly one validation
result, which is `false` exactly when role validation or syntactic validation fails and
`true` otherwise; the report is the same for every value of the round counter `k`, and a
message that passes role and syntactic validation but fails contextual validation for both
`k` and `k + 1` is still reported as valid. -/
theorem handleMessage_report (hm : HareMessage) (p : ConsensusProcess D) :
    (handleMessage ⟨some hm⟩ p).reports =
      p.reports ++ [validateRole p (some hm) && syntacticallyValid p hm] ∧
    (∀ k : Nat, (handleMessage ⟨some hm⟩ { p with k := k }).reports =
      (handleMessage ⟨some hm⟩ p).reports) ∧
    ((validateRole p (some hm) && syntacticallyValid p hm) = true →
      contextuallyValid p hm p.k = false →
      contextuallyValid p hm (toUint32 (p.k + 1)) = false →
      (handleMessage ⟨some hm⟩ p).reports = p.reports ++ [true]) := by
  have key : ∀ q : ConsensusProcess D, (handleMessage ⟨some hm⟩ q).reports =
      q.reports ++ [validateRole q (some hm) && syntacticallyValid q hm] := by
    intro q
    unfold handleMessage
    dsimp only
    split
    · rename_i h
      have h' : validateRole q (some hm) = false := by simpa using h
      simp [h', reportValidationResult]
    · rename_i h
      have h' : validateRole q (some hm) = true := by simpa using h
      split
      · rename_i h2
        have h2' : syntacticallyValid q hm = false := by simpa using h2
        simp [h', h2', reportValidationResult]
      · rename_i h2
        have h2' : syntacticallyValid q hm = true := by simpa using h2
        split
        · split
          · simp [h', h2', reportValidationResult]
          · rw [onEarlyMessage_reports]
            simp [h', h2', reportValidationResult]
        · rw [(processMsg_frame _ _).2]
          simp [h', h2', reportValidationResult]
  refine ⟨key p, ?_, ?_⟩
  · intro k
    rw [key, key]
    rfl
  · intro h _ _
    rw [key, h]

/-- Witness of C9: at `k = 0` the Proposal `proposal2` for round counter 1 is early; it is
stashed in `pending` under its sender's identity and nothing else changes but the report.
The PreRound message `preRoundA` is valid for `k = 0` and is recorded by `OnPreRound`. -/
theorem handleMessage_three_way_witness :
    (∃ sender, specDeps.NewVerifier proposal2.pubKey = some sender ∧
      handleMessage ⟨some proposal2⟩ proc0 =
        { reportValidationResult true proc0 with
          pending :=
            if (proc0.pending.lookup sender).isSome then proc0.pending
            else proc0.pending ++ [(sender, ⟨some proposal2⟩)] }) ∧
    handleMessage ⟨some preRoundA⟩ proc0 =
      { reportValidationResult true proc0 with
        preRoundTracker := specDeps.OnPreRound proc0.preRoundTracker preRoundA } :=
  ⟨(handleMessage_three_way ⟨some proposal2⟩ proposal2 proc0 rfl (by decide) (by decide)).2.1
    (by decide) (by decide),
   ((handleMessage_three_way ⟨some preRoundA⟩ preRoundA proc0 rfl (by decide)
      (by decide)).1 (by decide)).2.2.2 _ rfl |>.1 rfl⟩

/-- Witness of C10: at `k = 0` a Commit for round counter 2 fails contextual validation for
both `k` and `k + 1` and is reported as valid. -/
theorem handleMessage_report_witness :
    (handleMessage ⟨some (mkMsg 2 MessageType.Commit 2 (-1) [[10]] none)⟩ proc0).reports =
      proc0.reports ++ [true] :=
  (handleMessage_report (mkMsg 2 MessageType.Commit 2 (-1) [[10]] none) proc0).2.2
    (by decide) (by decide) (by decide)

/-! ## Start -/

/-- C1: `Start` on a process that has not been started (zero start time) returns no error and
records the start time `now` (the clock value, which is not the zero time), changing nothing
else but the count of spawned event loops; every later `Start` on the process, in whatever
state `q` it has reached with that start time, in particular after any sequence of events
of the event loop, returns the `StartInstanceError` with text "instance already started" and
leaves the whole process state unchanged. -/
theorem Start_once_then_error (p : ConsensusProcess D) (now : Int)
    (hfresh : p.startTime = 0) (hnow : now ≠ 0) :
    (Start now p).1 = none ∧
    (Start now p).2 = { p with startTime := now, loops := p.loops + 1 } ∧
    (∀ (q : ConsensusProcess D) (later : Int), q.startTime = (Start now p).2.startTime →
      (Start later q).1 = some (HareError.StartInstanceError "instance already started") ∧
      (Start later q).2 = q) ∧
    ∀ (es : List Event) (later : Int),
      (Start later (run es (Start now p).2)).1 =
        some (HareError.StartInstanceError "instance already started") ∧
      (Start later (run es (Start now p).2)).2 = run es (Start now p).2 := by
  have h1 : Start now p = (none, { p with startTime := now, loops := p.loops + 1 }) := by
    simp [Start, hfresh]
  have h2 : ∀ (q : ConsensusProcess D) (later : Int), q.startTime = (Start now p).2.startTime →
      (Start later q).1 = some (HareError.StartInstanceError "instance already started") ∧
      (Start later q).2 = q := by
    intro q later hq
    have hq0 : q.startTime ≠ 0 := by
      rw [hq, h1]
      exact hnow
    simp [Start, hq0]
  exact ⟨by rw [h1], by rw [h1], h2, fun es later => h2 _ later (run_startTime es _)⟩

/-- Witness of C1 on the fresh process `proc0` started at clock value `1700000000`: the
second `Start`, after the run `commitRun` of the event loop, fails and changes nothing. -/
theorem Start_once_then_error_witness :
    (Start 1700000000 proc0).1 = none ∧
    (Start 1700000001 (run commitRun (Start 1700000000 proc0).2)).1 =
      some (HareError.StartInstanceError "instance already started") ∧
    (Start 1700000001 (run commitRun (Start 1700000000 proc0).2)).2 =
      run commitRun (Start 1700000000 proc0).2 :=
  ⟨(Start_once_then_error proc0 1700000000 rfl (by decide)).1,
   ((Start_once_then_error proc0 1700000000 rfl (by decide)).2.2.2 commitRun 1700000001).1,
   ((Start_once_then_error proc0 1700000000 rfl (by decide)).2.2.2 commitRun 1700000001).2⟩

/-! ## Role proof, seed and status validator -/

theorem fnv32_foldl_eq_spec (bs : Bytes) (h : Nat) (hb : ∀ b ∈ bs, b < 256) :
    bs.foldl fnv32Step h = specFnv1 h bs := by
  induction bs generalizing h with
  | nil => rfl
  | cons b bs ih =>
    have hb0 : b < 256 := hb b (List.mem_cons_self _ _)
    have hstep : fnv32Step h b = Nat.xor (h * 16777619 % 4294967296) b := by
      unfold fnv32Step
      rw [Nat.mod_eq_of_lt hb0]
    simp only [List.foldl_cons, specFnv1, hstep]
    exact ih _ (fun x hx => hb x (List.mem_cons_of_mem _ hx))

theorem specFnv1_lt (bs : Bytes) (h : Nat) (hh : h < 4294967296) (hb : ∀ b ∈ bs, b < 256) :
    specFnv1 h bs < 4294967296 := by
  induction bs generalizing h with
  | nil => exact hh
  | cons b bs ih =>
    have hb0 : b < 256 := hb b (List.mem_cons_self _ _)
    simp only [specFnv1]
    refine ih _ ?_ (fun x hx => hb x (List.mem_cons_of_mem _ hx))
    have h1 : h * 16777619 % 4294967296 < 2 ^ 32 := Nat.mod_lt _ (by norm_num)
    have h2 : b < 2 ^ 32 := by omega
    exact Nat.xor_lt_two_pow h1 h2

theorem putUint32LE_spec (n : Nat) (hn : n < 4294967296) :
    (putUint32LE n).length = 4 ∧ (∀ b ∈ putUint32LE n, b < 256) ∧
    leValue (putUint32LE n) = n := by
  refine ⟨rfl, ?_, ?_⟩
  · intro b hb
    simp only [putUint32LE, List.mem_cons, List.mem_singleton, List.not_mem_nil, or_false] at hb
    omega
  · simp only [putUint32LE, leValue, List.foldr_cons, List.foldr_nil]
    omega

/-- C16: for every process whose round counter `k` is a `uint32` value and whose verifier
bytes are bytes, the byte string `roleProof` passes to `Sign` is the 4-byte little-endian
encoding (four bytes whose little-endian value is the hash) of the 32-bit FNV-1 hash, offset
basis 2166136261 and prime 16777619, of the verifier's bytes followed by the four bytes whose
little-endian value is `k`; the role proof is the same for every process state with the same
`k`, whatever `ki`, `s`, the certificate and the instance id are. -/
theorem roleProof_input_fnv (p : ConsensusProcess D) (hk : p.k < 4294967296)
    (hb : ∀ b ∈ D.verifierBytes, b < 256) :
    roleProof p = D.Sign (roleProofInput D p.k) ∧
    (roleProofInput D p.k).length = 4 ∧
    (∀ b ∈ roleProofInput D p.k, b < 256) ∧
    leValue (roleProofInput D p.k) =
      specFnv1 2166136261 (D.verifierBytes ++ putUint32LE p.k) ∧
    specFnv1 2166136261 (D.verifierBytes ++ putUint32LE p.k) < 4294967296 ∧
    ((putUint32LE p.k).length = 4 ∧ (∀ b ∈ putUint32LE p.k, b < 256) ∧
      leValue (putUint32LE p.k) = p.k) ∧
    ∀ p' : ConsensusProcess D, p'.k = p.k → roleProof p' = roleProof p := by
  have hkb := putUint32LE_spec p.k hk
  have hall : ∀ b ∈ D.verifierBytes ++ putUint32LE p.k, b < 256 := by
    intro b hmem
    rcases List.mem_append.mp hmem with h | h
    · exact hb b h
    · exact hkb.2.1 b h
  have hlt := specFnv1_lt (D.verifierBytes ++ putUint32LE p.k) 2166136261 (by norm_num) hall
  have hin : roleProofInput D p.k =
      putUint32LE (specFnv1 2166136261 (D.verifierBytes ++ putUint32LE p.k)) := by
    unfold roleProofInput fnv32
    have hku : toUint32 p.k = p.k := Nat.mod_eq_of_lt hk
    rw [hku, fnv32_foldl_eq_spec _ _ hall]
    unfold toUint32
    rw [Nat.mod_eq_of_lt hlt]
  have hout := putUint32LE_spec _ hlt
  refine ⟨rfl, ?_, ?_, ?_, hlt, hkb, ?_⟩
  · rw [hin]; exact hout.1
  · rw [hin]; exact hout.2.1
  · rw [hin]; exact hout.2.2
  · intro p' hp'
    unfold roleProof
    rw [hp']

/-- Witness of C16 on the fresh process `proc0` (verifier bytes `[1]`, `k = 0`): the signed
bytes are `[254, 144, 228, 193]`; and the FNV-1 test vector of the one-byte string "a". -/
theorem roleProof_input_fnv_witness :
    leValue (roleProofInput specDeps proc0.k) =
      specFnv1 2166136261 (specDeps.verifierBytes ++ putUint32LE proc0.k) ∧
    roleProofInput specDeps proc0.k = [254, 144, 228, 193] ∧
    specFnv1 2166136261 [97] = 84696446 :=
  ⟨(roleProof_input_fnv proc0 (by decide) (by decide)).2.2.2.1, by decide, by decide⟩

/-- C15: the eligibility seed `hashInstanceAndK(id, K)` is the 32-bit hasher applied to the
bytes of the instance id followed by the single byte `K mod 256`; consequently the seeds of
round counters congruent modulo 256 are equal, and the seed depends on the id bytes and on
`K mod 256` only. -/
theorem hashInstanceAndK_seed (D : Deps) (instanceID : InstanceId) (K : Nat) :
    hashInstanceAndK D instanceID K = D.hashU32 (instanceID.bytes ++ [K % 256]) ∧
    (∀ K' : Nat, K % 256 = K' % 256 →
      hashInstanceAndK D instanceID K = hashInstanceAndK D instanceID K') ∧
    (∀ (instanceID' : InstanceId) (K' : Nat), instanceID'.bytes = instanceID.bytes →
      K' % 256 = K % 256 →
      hashInstanceAndK D instanceID' K' = hashInstanceAndK D instanceID K) := by
  refine ⟨rfl, ?_, ?_⟩
  · intro K' h
    unfold hashInstanceAndK
    rw [h]
  · intro i' K' hi hK
    unfold hashInstanceAndK
    rw [hi, hK]

/-- Witness of C15: the round counters 1 and 257 give the same seed. -/
theorem hashInstanceAndK_seed_witness :
    hashInstanceAndK specDeps { bytes := [7] } 1 = hashInstanceAndK specDeps { bytes := [7] } 257 :=
  (hashInstanceAndK_seed specDeps { bytes := [7] } 1).2.1 257 (by decide)

/-- C14: the status validator accepts a Status message with `ki == -1` if and only if
`CanProveSet` holds for the set of the message's values, and a Status message with `ki >= 0`
if and only if `HasCertificate(ki, that set)` holds; it reads nothing of the process but the
PreRoundTracker and the NotifyTracker. -/
theorem statusValidator_accepts_iff (p : ConsensusProcess D) (m : HareMessage) (inner : InnerMessage)
    (hm : m.message = some inner) :
    (inner.ki = -1 →
      statusValidator p m = some (D.CanProveSet p.preRoundTracker (D.NewSet inner.values))) ∧
    (0 ≤ inner.ki →
      statusValidator p m =
        some (D.HasCertificate p.notifyTracker inner.ki (D.NewSet inner.values))) ∧
    (∀ p' : ConsensusProcess D, p'.preRoundTracker = p.preRoundTracker →
      p'.notifyTracker = p.notifyTracker → statusValidator p' m = statusValidator p m) := by
  refine ⟨?_, ?_, ?_⟩
  · intro h
    unfold statusValidator
    simp only [hm, h]
    cases D.CanProveSet p.preRoundTracker (D.NewSet inner.values) <;> simp
  · intro h
    have hne : inner.ki ≠ -1 := by omega
    unfold statusValidator
    simp only [hm, hne]
    cases D.HasCertificate p.notifyTracker inner.ki (D.NewSet inner.values) <;> simp
  · intro p' h1 h2
    unfold statusValidator
    rw [h1, h2]

/-- Witness of C14 on the Status message `statusA` (`ki = -1`) and the fresh process. -/
theorem statusValidator_accepts_iff_witness :
    statusValidator proc0 statusA =
      some (specDeps.CanProveSet proc0.preRoundTracker (specDeps.NewSet [[10]])) :=
  (statusValidator_accepts_iff proc0 statusA _ rfl).1 (by decide)

/-- C18 (the code at the failing input): on a wrapper whose payload is nil, `handleMessage`
panics (its log call evaluates `m.PubKey` after `validateRole` has returned false) and
reports no validation result; on a wrapper whose payload has no inner message it reports
`false` and changes nothing else. -/
theorem handleMessage_nil_payload_panics (p : ConsensusProcess D) (pubKey innerSig : Bytes) (cert : Option Certificate)
    (svp : Option AggregatedMessages) :
    handleMessage ⟨none⟩ p = { p with panicked := true } ∧
    (handleMessage ⟨none⟩ p).reports = p.reports ∧
    handleMessage ⟨some (HareMessage.mk pubKey innerSig none cert svp)⟩ p =
      reportValidationResult false p := by
  refine ⟨?_, ?_, ?_⟩
  · simp [handleMessage, validateRole]
  · simp [handleMessage, validateRole]
  · simp [handleMessage, validateRole, HareMessage.message]

/-! ## Round handlers -/

/-- The shape of `sendMessage` on a message: the message is logged in `handed`, and only the
logs `broadcasts` and the flag `panicked` may change besides. -/
theorem sendMessage_some_eq (m : HareMessage) (p : ConsensusProcess D) :
    ∃ bc pan, sendMessage (some m) p =
        { p with handed := p.handed ++ [m], broadcasts := bc, panicked := pan } ∧
      ((∀ x, D.Marshal x ≠ none) → pan = p.panicked) ∧
      (pan = p.panicked ∨ pan = true) ∧
      (isEligible p = true → ∀ data, D.Marshal m = some data → bc = p.broadcasts ++ [data]) := by
  unfold sendMessage
  dsimp only
  split
  · rename_i h
    refine ⟨p.broadcasts, p.panicked, rfl, fun _ => rfl, Or.inl rfl, ?_⟩
    intro he
    have h' : isEligible p = false := by simpa using h
    rw [h'] at he
    cases he
  · split
    · rename_i hm
      exact ⟨p.broadcasts, true, rfl, fun h => absurd hm (h m), Or.inr rfl,
        fun _ data hd => by rw [hm] at hd; cases hd⟩
    · rename_i data hm
      exact ⟨p.broadcasts ++ [data], p.panicked, rfl, fun _ => rfl, Or.inl rfl,
        fun _ d hd => by rw [hm] at hd; cases hd; rfl⟩

theorem endOfRound3_commit_eq (p : ConsensusProcess D) (pt : D.ProposalTracker)
    (ct : D.CommitTracker) (cert : Certificate) (s : D.HSet)
    (hns : p.notifySent = false) (hpt : p.proposalTracker = some pt)
    (hcf : D.IsConflicting pt = false) (hct : p.commitTracker = some ct)
    (hen : D.HasEnoughCommits ct = true) (hbc : D.BuildCertificate ct = some cert)
    (hps : D.ProposedSet pt = some s) :
    endOfRound3 p =
      thenDo
        (sendMessage
          (((((initDefaultBuilder s
              ({ p with s := s, certificate := some cert } : ConsensusProcess D)).SetType
                MessageType.Notify).SetCertificate (some cert)).Sign D).Build)
          { p with s := s, certificate := some cert })
        (fun q => { q with notifySent := true }) := by
  unfold endOfRound3
  simp only [hns, hpt, hcf, hct, hen, hbc, hps]
  rfl

/-- C12: `endOfRound3` changes the process only when `notifySent` is false, the
ProposalTracker reports no conflict, the CommitTracker has enough commits, `BuildCertificate`
returns a certificate and `ProposedSet` returns a set. In that case, on a running process, it
sets `s` to the proposed set and `certificate` to the built certificate, hands one Notify
carrying that certificate to `sendMessage`, leaves `k` and `ki` unchanged and sets
`notifySent` (always when marshalling does not fail; otherwise `sendMessage` has panicked).
In every other case it leaves `k`, `ki`, `s`, `certificate` and `notifySent` unchanged and
builds no message: the process is unchanged, or has panicked on a nil tracker. -/
theorem endOfRound3_effect (p : ConsensusProcess D) :
    (∀ pt ct cert s, p.panicked = false → p.notifySent = false →
      p.proposalTracker = some pt → D.IsConflicting pt = false →
      p.commitTracker = some ct → D.HasEnoughCommits ct = true →
      D.BuildCertificate ct = some cert → D.ProposedSet pt = some s →
      (endOfRound3 p).s = s ∧ (endOfRound3 p).certificate = some cert ∧
      (endOfRound3 p).k = p.k ∧ (endOfRound3 p).ki = p.ki ∧
      (∃ msg inner, (endOfRound3 p).handed = p.handed ++ [msg] ∧
        msg.message = some inner ∧ inner.type = MessageType.Notify ∧
        msg.cert = some cert ∧ inner.values = D.setValues s ∧
        inner.k = p.k ∧ inner.ki = p.ki) ∧
      ((endOfRound3 p).notifySent = true ∨ (endOfRound3 p).panicked = true) ∧
      ((∀ x, D.Marshal x ≠ none) →
        (endOfRound3 p).notifySent = true ∧ (endOfRound3 p).panicked = false)) ∧
    ((¬ ∃ pt ct cert s, p.notifySent = false ∧
        p.proposalTracker = some pt ∧ D.IsConflicting pt = false ∧
        p.commitTracker = some ct ∧ D.HasEnoughCommits ct = true ∧
        D.BuildCertificate ct = some cert ∧ D.ProposedSet pt = some s) →
      (endOfRound3 p).k = p.k ∧ (endOfRound3 p).ki = p.ki ∧ (endOfRound3 p).s = p.s ∧
      (endOfRound3 p).certificate = p.certificate ∧
      (endOfRound3 p).notifySent = p.notifySent ∧ (endOfRound3 p).handed = p.handed ∧
      (endOfRound3 p = p ∨ endOfRound3 p = { p with panicked := true })) := by
  constructor
  · intro pt ct cert s hp hns hpt hcf hct hen hbc hps
    rw [endOfRound3_commit_eq p pt ct cert s hns hpt hcf hct hen hbc hps]
    simp only [MessageBuilder.Build]
    obtain ⟨bc, pan, he, hM, hpan, -⟩ := sendMessage_some_eq
      (HareMessage.mk
        ((((initDefaultBuilder s
          ({ p with s := s, certificate := some cert } : ConsensusProcess D)).SetType
            MessageType.Notify).SetCertificate (some cert)).Sign D).pubKey
        ((((initDefaultBuilder s
          ({ p with s := s, certificate := some cert } : ConsensusProcess D)).SetType
            MessageType.Notify).SetCertificate (some cert)).Sign D).innerSig
        (some ((((initDefaultBuilder s
          ({ p with s := s, certificate := some cert } : ConsensusProcess D)).SetType
            MessageType.Notify).SetCertificate (some cert)).Sign D).inner)
        ((((initDefaultBuilder s
          ({ p with s := s, certificate := some cert } : ConsensusProcess D)).SetType
            MessageType.Notify).SetCertificate (some cert)).Sign D).cert
        ((((initDefaultBuilder s
          ({ p with s := s, certificate := some cert } : ConsensusProcess D)).SetType
            MessageType.Notify).SetCertificate (some cert)).Sign D).svp)
      ({ p with s := s, certificate := some cert } : ConsensusProcess D)
    rw [he]
    unfold thenDo
    split
    · rename_i hpv
      have hpv' : pan = true := hpv
      refine ⟨rfl, rfl, rfl, rfl, ⟨_, _, rfl, rfl, rfl, rfl, rfl, rfl, rfl⟩, Or.inr hpv', ?_⟩
      intro hMt
      have h1 : pan = p.panicked := hM hMt
      rw [hpv', hp] at h1
      cases h1
    · rename_i hpv
      have hpv' : pan = false := by
        cases pan
        · rfl
        · exact absurd rfl hpv
      exact ⟨rfl, rfl, rfl, rfl, ⟨_, _, rfl, rfl, rfl, rfl, rfl, rfl, rfl⟩, Or.inl rfl,
        fun _ => ⟨rfl, hpv'⟩⟩
  · intro hno
    unfold endOfRound3
    split
    · exact ⟨rfl, rfl, rfl, rfl, rfl, rfl, Or.inl rfl⟩
    · rename_i hns
      split
      · exact ⟨rfl, rfl, rfl, rfl, rfl, rfl, Or.inr rfl⟩
      · rename_i pt hpt
        split
        · exact ⟨rfl, rfl, rfl, rfl, rfl, rfl, Or.inl rfl⟩
        · rename_i hcf
          split
          · exact ⟨rfl, rfl, rfl, rfl, rfl, rfl, Or.inr rfl⟩
          · rename_i ct hct
            split
            · exact ⟨rfl, rfl, rfl, rfl, rfl, rfl, Or.inl rfl⟩
            · rename_i hen
              split
              · exact ⟨rfl, rfl, rfl, rfl, rfl, rfl, Or.inl rfl⟩
              · rename_i cert hbc
                split
                · exact ⟨rfl, rfl, rfl, rfl, rfl, rfl, Or.inl rfl⟩
                · rename_i s hps
                  exfalso
                  exact hno ⟨pt, ct, cert, s, by simpa using hns, hpt, by simpa using hcf, hct,
                    by simpa using hen, hbc, hps⟩

theorem beginRound3_some_eq (p : ConsensusProcess D) (pt : D.ProposalTracker) (ps : D.HSet)
    (hpt : p.proposalTracker = some pt) (hps : D.ProposedSet pt = some ps) :
    beginRound3 p =
      thenDo
        (sendMessage
          ((((initDefaultBuilder ps
              ({ p with commitTracker := some (D.NewCommitTracker (threshold p.cfg) p.cfg.N
                  (some ps)) } : ConsensusProcess D)).SetType MessageType.Commit).Sign D).Build)
          { p with commitTracker := some (D.NewCommitTracker (threshold p.cfg) p.cfg.N
              (some ps)) })
        (fun q => { q with
          commitTracker := some (D.NewCommitTracker (threshold q.cfg) q.cfg.N (some ps)) }) := by
  unfold beginRound3
  simp only [hpt, hps]

theorem beginRound3_none_eq (p : ConsensusProcess D) (pt : D.ProposalTracker)
    (hpt : p.proposalTracker = some pt) (hps : D.ProposedSet pt = none) :
    beginRound3 p =
      { p with commitTracker := some (D.NewCommitTracker (threshold p.cfg) p.cfg.N none) } := by
  unfold beginRound3
  simp only [hpt, hps]
  unfold thenDo
  split <;> rfl

/-- C13 (counterexample): the process `procEmptyProposed` tracks a proposal with no values;
`ProposedSet` returns the empty set (a set, not nil), and `beginRound3` builds a Commit with
no values, hands it to `sendMessage` and broadcasts it. -/
theorem beginRound3_commits_empty_set :
    procEmptyProposed.proposalTracker.map specDeps.ProposedSet =
      some (some (specDeps.NewSet [])) ∧
    (beginRound3 procEmptyProposed).handed.length = procEmptyProposed.handed.length + 1 ∧
    (beginRound3 procEmptyProposed).handed.getLast?.map
        (fun m => m.message.map fun i => (i.type, i.values)) =
      some (some (MessageType.Commit, [])) ∧
    (beginRound3 procEmptyProposed).broadcasts.length =
      procEmptyProposed.broadcasts.length + 1 := by
  refine ⟨rfl, by decide, by decide, by decide⟩

/-- C13 (amended): `beginRound3`, called with a proposal tracker in place, builds a Commit
message and hands it to `sendMessage` if and only if `ProposedSet` returns a set (a non-nil
result, which may be the empty set); the Commit carries exactly that set, and when the
process is eligible and the message marshals it is broadcast. The CommitTracker in place
after the call is the one constructed for the result of `ProposedSet` with threshold `F+1`.
When `ProposedSet` returns nil (conflict or no proposal) no message is built. -/
theorem beginRound3_commit (p : ConsensusProcess D) (pt : D.ProposalTracker)
    (hpt : p.proposalTracker = some pt)
    (hF1 : -9223372036854775808 ≤ p.cfg.F) (hF2 : p.cfg.F + 1 < 9223372036854775808) :
    (beginRound3 p).commitTracker =
      some (D.NewCommitTracker (p.cfg.F + 1) p.cfg.N (D.ProposedSet pt)) ∧
    (∀ ps, D.ProposedSet pt = some ps →
      ∃ msg inner, (beginRound3 p).handed = p.handed ++ [msg] ∧
        msg.message = some inner ∧ inner.type = MessageType.Commit ∧
        inner.values = D.setValues ps ∧ inner.k = p.k ∧ inner.ki = p.ki ∧
        (isEligible p = true → ∀ data, D.Marshal msg = some data →
          (beginRound3 p).broadcasts = p.broadcasts ++ [data])) ∧
    (D.ProposedSet pt = none →
      (beginRound3 p).handed = p.handed ∧ (beginRound3 p).broadcasts = p.broadcasts ∧
      beginRound3 p =
        { p with commitTracker := some (D.NewCommitTracker (p.cfg.F + 1) p.cfg.N none) }) := by
  have hthr := threshold_eq p.cfg hF1 hF2
  cases hps : D.ProposedSet pt with
  | none =>
    rw [beginRound3_none_eq p pt hpt hps, hthr]
    exact ⟨rfl, fun _ h => Option.noConfusion h, fun _ => ⟨rfl, rfl, rfl⟩⟩
  | some ps =>
    rw [beginRound3_some_eq p pt ps hpt hps]
    simp only [MessageBuilder.Build]
    obtain ⟨bc, pan, he, -, -, hb⟩ := sendMessage_some_eq
      (HareMessage.mk
        (((initDefaultBuilder ps
          ({ p with commitTracker := some (D.NewCommitTracker (threshold p.cfg) p.cfg.N
              (some ps)) } : ConsensusProcess D)).SetType MessageType.Commit).Sign D).pubKey
        (((initDefaultBuilder ps
          ({ p with commitTracker := some (D.NewCommitTracker (threshold p.cfg) p.cfg.N
              (some ps)) } : ConsensusProcess D)).SetType MessageType.Commit).Sign D).innerSig
        (some (((initDefaultBuilder ps
          ({ p with commitTracker := some (D.NewCommitTracker (threshold p.cfg) p.cfg.N
              (some ps)) } : ConsensusProcess D)).SetType MessageType.Commit).Sign D).inner)
        (((initDefaultBuilder ps
          ({ p with commitTracker := some (D.NewCommitTracker (threshold p.cfg) p.cfg.N
              (some ps)) } : ConsensusProcess D)).SetType MessageType.Commit).Sign D).cert
        (((initDefaultBuilder ps
          ({ p with commitTracker := some (D.NewCommitTracker (threshold p.cfg) p.cfg.N
              (some ps)) } : ConsensusProcess D)).SetType MessageType.Commit).Sign D).svp)
      ({ p with commitTracker := some (D.NewCommitTracker (threshold p.cfg) p.cfg.N
              (some ps)) } : ConsensusProcess D)
    rw [he]
    unfold thenDo
    rw [← hthr]
    split
    · exact ⟨rfl, fun ps' hps' => ⟨_, _, rfl, rfl, rfl, by cases hps'; rfl, rfl, rfl,
        fun hel data hd => hb hel data hd⟩, fun h => Option.noConfusion h⟩
    · exact ⟨rfl, fun ps' hps' => ⟨_, _, rfl, rfl, rfl, by cases hps'; rfl, rfl, rfl,
        fun hel data hd => hb hel data hd⟩, fun h => Option.noConfusion h⟩

theorem sendMessage_fields (m : Option HareMessage) (p : ConsensusProcess D) :
    (sendMessage m p).k = p.k ∧ (sendMessage m p).pending = p.pending ∧
    (sendMessage m p).inbox = p.inbox ∧
    (sendMessage m p).statusesTracker = p.statusesTracker ∧
    (sendMessage m p).proposalTracker = p.proposalTracker ∧
    (sendMessage m p).commitTracker = p.commitTracker ∧
    ((∀ x, D.Marshal x ≠ none) → (sendMessage m p).panicked = p.panicked) := by
  cases m with
  | none => exact ⟨rfl, rfl, rfl, rfl, rfl, rfl, fun _ => rfl⟩
  | some hm =>
    obtain ⟨bc, pan, he, hM, -, -⟩ := sendMessage_some_eq hm p
    rw [he]
    exact ⟨rfl, rfl, rfl, rfl, rfl, rfl, hM⟩

theorem beginRound1_facts (p : ConsensusProcess D) :
    (beginRound1 p).k = p.k ∧ (beginRound1 p).pending = p.pending ∧
    (beginRound1 p).inbox = p.inbox ∧
    (beginRound1 p).statusesTracker.isSome = true ∧
    (beginRound1 p).proposalTracker = p.proposalTracker ∧
    (beginRound1 p).commitTracker = p.commitTracker ∧
    ((∀ x, D.Marshal x ≠ none) → (beginRound1 p).panicked = p.panicked) := by
  unfold beginRound1
  refine ⟨(sendMessage_fields _ _).1, (sendMessage_fields _ _).2.1,
    (sendMessage_fields _ _).2.2.1, ?_, (sendMessage_fields _ _).2.2.2.2.1,
    (sendMessage_fields _ _).2.2.2.2.2.1, (sendMessage_fields _ _).2.2.2.2.2.2⟩
  dsimp only
  rw [(sendMessage_fields _ _).2.2.2.1]
  rfl

theorem beginRound2_facts (p : ConsensusProcess D) :
    (beginRound2 p).k = p.k ∧ (beginRound2 p).pending = p.pending ∧
    (beginRound2 p).inbox = p.inbox ∧
    (beginRound2 p).proposalTracker.isSome = true ∧
    (beginRound2 p).commitTracker = p.commitTracker ∧
    ((∀ x, D.Marshal x ≠ none) → p.statusesTracker.isSome = true →
      (beginRound2 p).panicked = p.panicked) := by
  have key : ∀ q : ConsensusProcess D,
      q.k = p.k ∧ q.pending = p.pending ∧ q.inbox = p.inbox ∧
      q.proposalTracker.isSome = true ∧ q.commitTracker = p.commitTracker ∧
      ((∀ x, D.Marshal x ≠ none) → p.statusesTracker.isSome = true →
        q.panicked = p.panicked) →
      (thenDo q fun r => { r with statusesTracker := none }).k = p.k ∧
      (thenDo q fun r => { r with statusesTracker := none }).pending = p.pending ∧
      (thenDo q fun r => { r with statusesTracker := none }).inbox = p.inbox ∧
      (thenDo q fun r => { r with statusesTracker := none }).proposalTracker.isSome = true ∧
      (thenDo q fun r => { r with statusesTracker := none }).commitTracker = p.commitTracker ∧
      ((∀ x, D.Marshal x ≠ none) → p.statusesTracker.isSome = true →
        (thenDo q fun r => { r with statusesTracker := none }).panicked = p.panicked) := by
    intro q hq
    unfold thenDo
    split
    · exact hq
    · exact hq
  unfold beginRound2
  apply key
  dsimp only
  split
  · split
    · rename_i hst
      refine ⟨rfl, rfl, rfl, rfl, rfl, fun _ h => ?_⟩
      have hst' : p.statusesTracker = none := hst
      rw [hst'] at h
      cases h
    · split
      · split
        · refine ⟨(sendMessage_fields _ _).1, (sendMessage_fields _ _).2.1,
            (sendMessage_fields _ _).2.2.1, ?_, (sendMessage_fields _ _).2.2.2.2.2.1,
            fun hM _ => (sendMessage_fields _ _).2.2.2.2.2.2 hM⟩
          rw [(sendMessage_fields _ _).2.2.2.2.1]
          rfl
        · exact ⟨rfl, rfl, rfl, rfl, rfl, fun _ _ => rfl⟩
      · exact ⟨rfl, rfl, rfl, rfl, rfl, fun _ _ => rfl⟩
  · exact ⟨rfl, rfl, rfl, rfl, rfl, fun _ _ => rfl⟩

theorem beginRound3_facts (p : ConsensusProcess D) :
    (beginRound3 p).k = p.k ∧ (beginRound3 p).pending = p.pending ∧
    (beginRound3 p).inbox = p.inbox ∧
    (beginRound3 p).proposalTracker = p.proposalTracker ∧
    (p.proposalTracker.isSome = true →
      (beginRound3 p).commitTracker.isSome = true ∧
      ((∀ x, D.Marshal x ≠ none) → (beginRound3 p).panicked = p.panicked)) := by
  unfold beginRound3
  split
  · rename_i hpt
    refine ⟨rfl, rfl, rfl, rfl, fun h => ?_⟩
    rw [hpt] at h
    cases h
  · rename_i pt hpt
    dsimp only
    unfold thenDo
    split
    · split
      · refine ⟨(sendMessage_fields _ _).1, (sendMessage_fields _ _).2.1,
          (sendMessage_fields _ _).2.2.1, (sendMessage_fields _ _).2.2.2.2.1, fun _ => ⟨?_, ?_⟩⟩
        · rw [(sendMessage_fields _ _).2.2.2.2.2.1]
          rfl
        · exact (sendMessage_fields _ _).2.2.2.2.2.2
      · exact ⟨rfl, rfl, rfl, rfl, fun _ => ⟨rfl, fun _ => rfl⟩⟩
    · split
      · refine ⟨(sendMessage_fields _ _).1, (sendMessage_fields _ _).2.1,
          (sendMessage_fields _ _).2.2.1, (sendMessage_fields _ _).2.2.2.2.1, fun _ => ⟨rfl, ?_⟩⟩
        exact (sendMessage_fields _ _).2.2.2.2.2.2
      · exact ⟨rfl, rfl, rfl, rfl, fun _ => ⟨rfl, fun _ => rfl⟩⟩

theorem endOfRound1_facts (p : ConsensusProcess D) :
    (endOfRound1 p).k = p.k ∧
    (endOfRound1 p).proposalTracker = p.proposalTracker ∧
    (endOfRound1 p).commitTracker = p.commitTracker ∧
    (p.statusesTracker.isSome = true →
      (endOfRound1 p).statusesTracker.isSome = true ∧
      (endOfRound1 p).panicked = p.panicked) := by
  unfold endOfRound1
  split
  · rename_i h
    refine ⟨rfl, rfl, rfl, fun hs => ?_⟩
    rw [h] at hs
    cases hs
  · exact ⟨rfl, rfl, rfl, fun _ => ⟨rfl, rfl⟩⟩

theorem endOfRound3_facts (p : ConsensusProcess D) :
    (endOfRound3 p).k = p.k ∧
    (endOfRound3 p).statusesTracker = p.statusesTracker ∧
    (endOfRound3 p).proposalTracker = p.proposalTracker ∧
    (endOfRound3 p).commitTracker = p.commitTracker ∧
    ((∀ x, D.Marshal x ≠ none) → p.proposalTracker.isSome = true →
      p.commitTracker.isSome = true → (endOfRound3 p).panicked = p.panicked) := by
  unfold endOfRound3
  split
  · exact ⟨rfl, rfl, rfl, rfl, fun _ _ _ => rfl⟩
  · split
    · rename_i h
      refine ⟨rfl, rfl, rfl, rfl, fun _ hs _ => ?_⟩
      rw [h] at hs
      cases hs
    · split
      · exact ⟨rfl, rfl, rfl, rfl, fun _ _ _ => rfl⟩
      · split
        · rename_i h
          refine ⟨rfl, rfl, rfl, rfl, fun _ _ hs => ?_⟩
          rw [h] at hs
          cases hs
        · split
          · exact ⟨rfl, rfl, rfl, rfl, fun _ _ _ => rfl⟩
          · split
            · exact ⟨rfl, rfl, rfl, rfl, fun _ _ _ => rfl⟩
            · split
              · exact ⟨rfl, rfl, rfl, rfl, fun _ _ _ => rfl⟩
              · dsimp only
                unfold thenDo
                split
                · exact ⟨(sendMessage_fields _ _).1, (sendMessage_fields _ _).2.2.2.1,
                    (sendMessage_fields _ _).2.2.2.2.1, (sendMessage_fields _ _).2.2.2.2.2.1,
                    fun hM _ _ => (sendMessage_fields _ _).2.2.2.2.2.2 hM⟩
                · exact ⟨(sendMessage_fields _ _).1, (sendMessage_fields _ _).2.2.2.1,
                    (sendMessage_fields _ _).2.2.2.2.1, (sendMessage_fields _ _).2.2.2.2.2.1,
                    fun hM _ _ => (sendMessage_fields _ _).2.2.2.2.2.2 hM⟩

theorem currentRound_cases (p : ConsensusProcess D) :
    currentRound p = Round1 ∨ currentRound p = Round2 ∨ currentRound p = Round3 ∨
    currentRound p = Round4 := by
  unfold currentRound Round1 Round2 Round3 Round4
  omega

theorem currentRound_advance (p : ConsensusProcess D) :
    currentRound (advanceToNextRound p) = (currentRound p + 1) % 4 := by
  unfold currentRound advanceToNextRound toUint32
  dsimp only
  omega

theorem pendingSwap_facts (p1 : ConsensusProcess D) :
    (pendingSwap p1).k = p1.k ∧ (pendingSwap p1).panicked = p1.panicked ∧
    (pendingSwap p1).statusesTracker = p1.statusesTracker ∧
    (pendingSwap p1).proposalTracker = p1.proposalTracker ∧
    (pendingSwap p1).commitTracker = p1.commitTracker ∧
    (p1.panicked = false →
      (pendingSwap p1).pending = [] ∧
      (pendingSwap p1).inbox = p1.inbox ++ p1.pending.map Prod.snd) := by
  unfold pendingSwap thenDo handlePending
  split
  · rename_i h
    refine ⟨rfl, rfl, rfl, rfl, rfl, fun hn => ?_⟩
    rw [h] at hn
    cases hn
  · exact ⟨rfl, rfl, rfl, rfl, rfl, fun _ => ⟨rfl, rfl⟩⟩

theorem onRoundBegin_round1 (p : ConsensusProcess D) (h : currentRound p = Round1) :
    onRoundBegin p = pendingSwap (beginRound1 p) := by
  unfold onRoundBegin pendingSwap
  simp only [h, if_true]

theorem onRoundBegin_round2 (p : ConsensusProcess D) (h : currentRound p = Round2) :
    onRoundBegin p = pendingSwap (beginRound2 p) := by
  unfold onRoundBegin pendingSwap
  simp [h, Round1, Round2]

theorem onRoundBegin_round3 (p : ConsensusProcess D) (h : currentRound p = Round3) :
    onRoundBegin p = pendingSwap (beginRound3 p) := by
  unfold onRoundBegin pendingSwap
  simp [h, Round1, Round2, Round3]

theorem onRoundBegin_round4 (p : ConsensusProcess D) (h : currentRound p = Round4) :
    onRoundBegin p = pendingSwap (beginRound4 p) := by
  unfold onRoundBegin pendingSwap
  simp [h, Round1, Round2, Round3, Round4]

/-- What `onRoundBegin` does in every round. -/
theorem onRoundBegin_facts (p : ConsensusProcess D) :
    (onRoundBegin p).k = p.k ∧
    ((onRoundBegin p).panicked = false →
      (onRoundBegin p).pending = [] ∧
      (onRoundBegin p).inbox = p.inbox ++ p.pending.map Prod.snd ∧
      (currentRound p = Round1 → (onRoundBegin p).statusesTracker.isSome = true) ∧
      (currentRound p = Round2 → (onRoundBegin p).proposalTracker.isSome = true) ∧
      (currentRound p = Round3 → p.proposalTracker.isSome = true →
        (onRoundBegin p).proposalTracker.isSome = true ∧
        (onRoundBegin p).commitTracker.isSome = true)) ∧
    ((∀ x, D.Marshal x ≠ none) →
      (currentRound p = Round2 → p.statusesTracker.isSome = true) →
      (currentRound p = Round3 → p.proposalTracker.isSome = true) →
      (onRoundBegin p).panicked = p.panicked) := by
  have r12 : Round1 ≠ Round2 := by decide
  have r13 : Round1 ≠ Round3 := by decide
  have r14 : Round1 ≠ Round4 := by decide
  have r23 : Round2 ≠ Round3 := by decide
  have r24 : Round2 ≠ Round4 := by decide
  have r34 : Round3 ≠ Round4 := by decide
  rcases currentRound_cases p with h | h | h | h
  · have b := beginRound1_facts p
    have w := pendingSwap_facts (beginRound1 p)
    rw [onRoundBegin_round1 p h]
    refine ⟨w.1.trans b.1, fun hn => ?_, fun hM _ _ => w.2.1.trans (b.2.2.2.2.2.2 hM)⟩
    have hn1 : (beginRound1 p).panicked = false := w.2.1.symm.trans hn
    obtain ⟨w1, w2⟩ := w.2.2.2.2.2 hn1
    refine ⟨w1, ?_, fun _ => ?_, fun h' => absurd (h.symm.trans h') r12,
      fun h' => absurd (h.symm.trans h') r13⟩
    · rw [w2, b.2.1, b.2.2.1]
    · rw [w.2.2.1]; exact b.2.2.2.1
  · have b := beginRound2_facts p
    have w := pendingSwap_facts (beginRound2 p)
    rw [onRoundBegin_round2 p h]
    refine ⟨w.1.trans b.1, fun hn => ?_, fun hM h2 _ => w.2.1.trans (b.2.2.2.2.2 hM (h2 h))⟩
    have hn1 : (beginRound2 p).panicked = false := w.2.1.symm.trans hn
    obtain ⟨w1, w2⟩ := w.2.2.2.2.2 hn1
    refine ⟨w1, ?_, fun h' => absurd (h'.symm.trans h) r12, fun _ => ?_,
      fun h' => absurd (h.symm.trans h') r23⟩
    · rw [w2, b.2.1, b.2.2.1]
    · rw [w.2.2.2.1]; exact b.2.2.2.1
  · have b := beginRound3_facts p
    have w := pendingSwap_facts (beginRound3 p)
    rw [onRoundBegin_round3 p h]
    refine ⟨w.1.trans b.1, fun hn => ?_,
      fun hM _ h3 => w.2.1.trans ((b.2.2.2.2 (h3 h)).2 hM)⟩
    have hn1 : (beginRound3 p).panicked = false := w.2.1.symm.trans hn
    obtain ⟨w1, w2⟩ := w.2.2.2.2.2 hn1
    refine ⟨w1, ?_, fun h' => absurd (h'.symm.trans h) r13,
      fun h' => absurd (h'.symm.trans h) r23, fun _ hpt => ⟨?_, ?_⟩⟩
    · rw [w2, b.2.1, b.2.2.1]
    · rw [w.2.2.2.1, b.2.2.2.1]; exact hpt
    · rw [w.2.2.2.2.1]; exact (b.2.2.2.2 hpt).1
  · have w := pendingSwap_facts (beginRound4 p)
    rw [onRoundBegin_round4 p h]
    refine ⟨w.1, fun hn => ?_, fun _ _ _ => w.2.1⟩
    have hn1 : (beginRound4 p).panicked = false := w.2.1.symm.trans hn
    obtain ⟨w1, w2⟩ := w.2.2.2.2.2 hn1
    exact ⟨w1, w2, fun h' => absurd (h'.symm.trans h) r14,
      fun h' => absurd (h'.symm.trans h) r24, fun h' => absurd (h'.symm.trans h) r34⟩

theorem sameRound_refl (p : ConsensusProcess D) : sameRound p p := ⟨rfl, rfl, rfl, rfl⟩

theorem sameRound_trans {p q r : ConsensusProcess D} (h1 : sameRound p q)
    (h2 : sameRound q r) : sameRound p r :=
  ⟨h2.1.trans h1.1, h2.2.1.trans h1.2.1, h2.2.2.1.trans h1.2.2.1, h2.2.2.2.trans h1.2.2.2⟩

theorem sameRound_thenDo {p q : ConsensusProcess D}
    {f : ConsensusProcess D → ConsensusProcess D}
    (h1 : sameRound p q) (h2 : ∀ r, sameRound r (f r)) : sameRound p (thenDo q f) := by
  unfold thenDo
  split
  · exact h1
  · exact sameRound_trans h1 (h2 q)

theorem sameRound_notifyUpdate (msg : HareMessage) (inner : InnerMessage)
    (p : ConsensusProcess D) : sameRound p (notifyUpdate msg inner p) := by
  unfold notifyUpdate
  split
  · split
    · exact ⟨rfl, rfl, rfl, rfl⟩
    · split <;> exact ⟨rfl, rfl, rfl, rfl⟩
  · exact ⟨rfl, rfl, rfl, rfl⟩

theorem sameRound_notifyFinish (s : D.HSet) (p : ConsensusProcess D) :
    sameRound p (notifyFinish s p) := by
  unfold notifyFinish
  split <;> exact ⟨rfl, rfl, rfl, rfl⟩

theorem sameRound_processNotifyMsg (msg : HareMessage) (p : ConsensusProcess D) :
    sameRound p (processNotifyMsg msg p) := by
  cases hm : msg.message with
  | none =>
    rw [processNotifyMsg_none msg p hm]
    exact ⟨rfl, rfl, rfl, rfl⟩
  | some inner =>
    rw [processNotifyMsg_some msg inner p hm]
    split
    · exact ⟨rfl, rfl, rfl, rfl⟩
    · exact sameRound_thenDo
        (sameRound_trans (q := { p with notifyTracker := (D.OnNotify p.notifyTracker msg).2 })
          ⟨rfl, rfl, rfl, rfl⟩ (sameRound_notifyUpdate msg inner _))
        (sameRound_notifyFinish _)

theorem sameRound_processMsg (m : HareMessage) (p : ConsensusProcess D) :
    sameRound p (processMsg m p) := by
  unfold processMsg
  split
  · exact ⟨rfl, rfl, rfl, rfl⟩
  · split
    · exact ⟨rfl, rfl, rfl, rfl⟩
    · unfold processStatusMsg
      split
      · exact ⟨rfl, rfl, rfl, rfl⟩
      · rename_i st hst
        exact ⟨rfl, by rw [hst]; rfl, rfl, rfl⟩
    · unfold processProposalMsg
      split
      · exact ⟨rfl, rfl, rfl, rfl⟩
      · rename_i pt hpt
        split <;> exact ⟨rfl, rfl, by rw [hpt]; rfl, rfl⟩
    · unfold processCommitMsg
      split
      · exact ⟨rfl, rfl, rfl, rfl⟩
      · rename_i ct hct
        exact ⟨rfl, rfl, rfl, by rw [hct]; rfl⟩
    · exact sameRound_processNotifyMsg m p
    · exact ⟨rfl, rfl, rfl, rfl⟩

theorem sameRound_onEarlyMessage (m : Message) (p : ConsensusProcess D) :
    sameRound p (onEarlyMessage m p) := by
  unfold onEarlyMessage
  split
  · exact ⟨rfl, rfl, rfl, rfl⟩
  · split
    · exact ⟨rfl, rfl, rfl, rfl⟩
    · split <;> exact ⟨rfl, rfl, rfl, rfl⟩

theorem sameRound_handleMessage (m : Message) (p : ConsensusProcess D) :
    sameRound p (handleMessage m p) := by
  unfold handleMessage
  dsimp only
  split
  · split <;> exact ⟨rfl, rfl, rfl, rfl⟩
  · split
    · exact ⟨rfl, rfl, rfl, rfl⟩
    · split
      · exact ⟨rfl, rfl, rfl, rfl⟩
      · split
        · split
          · exact ⟨rfl, rfl, rfl, rfl⟩
          · exact sameRound_trans (q := reportValidationResult true p) ⟨rfl, rfl, rfl, rfl⟩
              (sameRound_onEarlyMessage _ _)
        · exact sameRound_trans (q := reportValidationResult true p) ⟨rfl, rfl, rfl, rfl⟩
            (sameRound_processMsg _ _)

theorem roundReady_of_sameRound {p q : ConsensusProcess D} (h : sameRound p q)
    (hr : roundReady p) : roundReady q := by
  obtain ⟨hk, h1, h2, h3⟩ := h
  have hc : currentRound q = currentRound p := by
    unfold currentRound
    rw [hk]
  unfold roundReady
  rw [hc, h1, h2, h3]
  exact hr

theorem readyOrPanicked_deliver (m : Message) (p : ConsensusProcess D)
    (h : readyOrPanicked p) : readyOrPanicked (step (Event.deliver m) p) := by
  unfold step thenDo
  split
  · exact h
  · rename_i hp
    rcases h with h | h
    · exact absurd h hp
    · exact Or.inr (roundReady_of_sameRound (sameRound_handleMessage m p) h)

theorem onRoundEnd_facts (p : ConsensusProcess D) (hr : roundReady p) :
    (onRoundEnd p).k = p.k ∧
    (onRoundEnd p).proposalTracker = p.proposalTracker ∧
    (onRoundEnd p).commitTracker = p.commitTracker ∧
    (currentRound p = Round1 → (onRoundEnd p).statusesTracker.isSome = true) ∧
    ((∀ x, D.Marshal x ≠ none) → (onRoundEnd p).panicked = p.panicked) := by
  unfold onRoundEnd
  split
  · rename_i h
    have e := endOfRound1_facts p
    exact ⟨e.1, e.2.1, e.2.2.1, fun _ => (e.2.2.2 (hr.1 h)).1, fun _ => (e.2.2.2 (hr.1 h)).2⟩
  · rename_i h1
    split
    · rename_i h
      have e := endOfRound3_facts p
      exact ⟨e.1, e.2.2.1, e.2.2.2.1, fun h' => absurd h' h1,
        fun hM => e.2.2.2.2 hM (hr.2.2 h).1 (hr.2.2 h).2⟩
    · exact ⟨rfl, rfl, rfl, fun h' => absurd h' h1, fun _ => rfl⟩

theorem run_tick_eq (p : ConsensusProcess D) :
    run tick p = thenDo (thenDo (thenDo p onRoundEnd) advanceToNextRound) onRoundBegin := rfl

/-- One round tick on a running process whose round trackers are present. -/
theorem tick_facts (p : ConsensusProcess D) (hr : roundReady p) (hp : p.panicked = false) :
    ((run tick p).panicked = false → roundReady (run tick p)) ∧
    ((∀ x, D.Marshal x ≠ none) → (run tick p).panicked = false) := by
  have e := onRoundEnd_facts p hr
  rw [run_tick_eq]
  have h1 : thenDo p onRoundEnd = onRoundEnd p := by
    unfold thenDo
    rw [hp]
    rfl
  rw [h1]
  cases hpa : (onRoundEnd p).panicked with
  | true =>
    have h2 : thenDo (thenDo (onRoundEnd p) advanceToNextRound) onRoundBegin = onRoundEnd p := by
      unfold thenDo
      simp [hpa]
    rw [h2]
    refine ⟨fun hn => ?_, fun hM => ?_⟩
    · rw [hpa] at hn
      cases hn
    · have := e.2.2.2.2 hM
      rw [hpa, hp] at this
      cases this
  | false =>
    have h2 : thenDo (thenDo (onRoundEnd p) advanceToNextRound) onRoundBegin =
        onRoundBegin (advanceToNextRound (onRoundEnd p)) := by
      unfold thenDo
      simp only [hpa, Bool.false_eq_true, if_false]
      have : (advanceToNextRound (onRoundEnd p)).panicked = false := hpa
      simp only [this, Bool.false_eq_true, if_false]
    rw [h2]
    have hb := onRoundBegin_facts (advanceToNextRound (onRoundEnd p))
    have hcr : currentRound (advanceToNextRound (onRoundEnd p)) = (currentRound p + 1) % 4 := by
      rw [currentRound_advance]
      unfold currentRound
      rw [e.1]
    have hcq : currentRound (onRoundBegin (advanceToNextRound (onRoundEnd p))) =
        (currentRound p + 1) % 4 := by
      rw [← hcr]
      unfold currentRound
      rw [hb.1]
    have hst : (advanceToNextRound (onRoundEnd p)).statusesTracker =
        (onRoundEnd p).statusesTracker := rfl
    have hpt : (advanceToNextRound (onRoundEnd p)).proposalTracker = p.proposalTracker := e.2.1
    have hpb : (advanceToNextRound (onRoundEnd p)).panicked = false := hpa
    have hrange := currentRound_cases p
    unfold Round1 Round2 Round3 Round4 at *
    constructor
    · intro hn
      obtain ⟨-, -, g1, g2, g3⟩ := hb.2.1 hn
      refine ⟨fun h => ?_, fun h => ?_, fun h => ?_⟩
      · exact g1 (by rw [hcr, ← hcq]; exact h)
      · exact g2 (by rw [hcr, ← hcq]; exact h)
      · have h3 : currentRound p = 1 := by
          have h' : (currentRound p + 1) % 4 = 2 := hcq.symm.trans h
          have hlt : currentRound p < 4 := Nat.mod_lt _ (by norm_num)
          generalize currentRound p = c at h' hlt
          omega
        refine g3 (by rw [hcr, ← hcq]; exact h) ?_
        rw [hpt]
        exact hr.2.1 h3
    · intro hM
      rw [hb.2.2 hM ?_ ?_]
      · exact hpb
      · intro h
        have h0 : currentRound p = 0 := by
          rw [hcr] at h
          omega
        rw [hst]
        exact e.2.2.2.1 h0
      · intro h
        have h1' : currentRound p = 1 := by
          rw [hcr] at h
          omega
        rw [hpt]
        exact hr.2.1 h1'

/-- C11: whichever round is beginning, when `onRoundBegin` completes it leaves `pending`
empty and has written to the inbox exactly the messages that were in `pending` before the
call, each once (in Go the order of the writes is the map's iteration order). It completes
on every running process whose trackers are in place for the round (the status tracker when
Round2 begins, the proposal tracker when Round3 begins) when marshalling does not fail. -/
theorem onRoundBegin_reinjects_pending (p : ConsensusProcess D) :
    ((onRoundBegin p).panicked = false →
      (onRoundBegin p).pending = [] ∧
      (onRoundBegin p).inbox = p.inbox ++ p.pending.map Prod.snd) ∧
    (p.panicked = false → (∀ x, D.Marshal x ≠ none) →
      (currentRound p = Round2 → p.statusesTracker.isSome = true) →
      (currentRound p = Round3 → p.proposalTracker.isSome = true) →
      (onRoundBegin p).panicked = false ∧
      (onRoundBegin p).pending = [] ∧
      (onRoundBegin p).inbox = p.inbox ++ p.pending.map Prod.snd) := by
  have h := onRoundBegin_facts p
  refine ⟨fun hn => ⟨(h.2.1 hn).1, (h.2.1 hn).2.1⟩, fun hp hM h2 h3 => ?_⟩
  have hn : (onRoundBegin p).panicked = false := (h.2.2 hM h2 h3).trans hp
  exact ⟨hn, (h.2.1 hn).1, (h.2.1 hn).2.1⟩

/-- Witness of C11 on `procStash`, which holds one stashed message: `onRoundBegin` empties
`pending` and writes the message to the inbox. -/
theorem onRoundBegin_reinjects_pending_witness :
    procStash.pending.length = 1 ∧
    (onRoundBegin procStash).panicked = false ∧
    (onRoundBegin procStash).pending = [] ∧
    (onRoundBegin procStash).inbox = procStash.inbox ++ procStash.pending.map Prod.snd :=
  ⟨by decide,
   (onRoundBegin_reinjects_pending procStash).2 (by decide) (fun _ h => by cases h) (fun h => absurd h (by decide))
    (fun h => absurd h (by decide))⟩

theorem run_append (es fs : List Event) (p : ConsensusProcess D) :
    run (es ++ fs) p = run fs (run es p) := by
  unfold run
  rw [List.foldl_append]

theorem run_of_panicked (es : List Event) (p : ConsensusProcess D) (h : p.panicked = true) :
    run es p = p := by
  induction es with
  | nil => rfl
  | cons e es ih =>
    have hs : step e p = p := by
      unfold step thenDo
      rw [if_pos h]
    show run es (step e p) = p
    rw [hs]
    exact ih

theorem readyOrPanicked_deliveries (ms : List Message) (p : ConsensusProcess D)
    (h : readyOrPanicked p) : readyOrPanicked (run (ms.map Event.deliver) p) := by
  induction ms generalizing p with
  | nil => exact h
  | cons m ms ih => exact ih _ (readyOrPanicked_deliver m p h)

theorem readyOrPanicked_tick (p : ConsensusProcess D) (h : readyOrPanicked p) :
    readyOrPanicked (run tick p) := by
  rcases h with h | h
  · rw [run_of_panicked tick p h]
    exact Or.inl h
  · cases hp : p.panicked with
    | true =>
      rw [run_of_panicked tick p hp]
      exact Or.inl hp
    | false =>
      cases hq : (run tick p).panicked with
      | true => exact Or.inl hq
      | false => exact Or.inr ((tick_facts p h hp).1 hq)

theorem readyOrPanicked_rounds (rounds : List (List Message)) (p : ConsensusProcess D)
    (h : readyOrPanicked p) :
    readyOrPanicked (run (rounds.map fun ms => ms.map Event.deliver ++ tick).flatten p) := by
  induction rounds generalizing p with
  | nil => exact h
  | cons ms rounds ih =>
    simp only [List.map_cons, List.flatten_cons]
    rw [run_append, run_append]
    exact ih _ (readyOrPanicked_tick _ (readyOrPanicked_deliveries ms p h))

theorem currentRound_new (cfg : Config) (instanceId : InstanceId) (s : D.HSet) :
    currentRound (NewConsensusProcess D cfg instanceId s) = Round1 := rfl

theorem roundReady_new (cfg : Config) (instanceId : InstanceId) (s : D.HSet) :
    roundReady (NewConsensusProcess D cfg instanceId s) :=
  ⟨fun _ => rfl,
   fun h => absurd ((currentRound_new cfg instanceId s).symm.trans h) (by decide),
   fun h => absurd ((currentRound_new cfg instanceId s).symm.trans h) (by decide)⟩

theorem readyOrPanicked_roundBegin (p : ConsensusProcess D) (hr : currentRound p = Round1) :
    readyOrPanicked (step Event.roundBegin p) := by
  unfold step thenDo
  split
  · rename_i hp
    exact Or.inl hp
  · have h := onRoundBegin_facts p
    show readyOrPanicked (onRoundBegin p)
    cases hq : (onRoundBegin p).panicked with
    | true => exact Or.inl hq
    | false =>
      have hc : currentRound (onRoundBegin p) = Round1 := by
        unfold currentRound at hr ⊢
        rw [h.1]
        exact hr
      refine Or.inr ⟨fun _ => (h.2.1 hq).2.2.1 hr, fun h' => ?_, fun h' => ?_⟩
      · rw [hc] at h'
        exact absurd h' (by decide)
      · rw [hc] at h'
        exact absurd h' (by decide)

theorem readyOrPanicked_loop (cfg : Config) (instanceId : InstanceId) (s : D.HSet)
    (pre : List Message) (rounds : List (List Message)) :
    readyOrPanicked (run (loopEvents pre rounds) (NewConsensusProcess D cfg instanceId s)) := by
  unfold loopEvents
  rw [run_append, run_append]
  refine readyOrPanicked_rounds rounds _ ?_
  have h0 := readyOrPanicked_deliveries pre _ (Or.inr (roundReady_new cfg instanceId s))
  rcases h0 with h0 | h0
  · rw [run_of_panicked _ _ h0]
    exact Or.inl h0
  · refine readyOrPanicked_roundBegin _ ?_
    have hk : ∀ (ms : List Message) (p : ConsensusProcess D),
        (run (ms.map Event.deliver) p).k = p.k := by
      intro ms
      induction ms with
      | nil => intro p; rfl
      | cons m ms ih =>
        intro p
        show (run (ms.map Event.deliver) (step (Event.deliver m) p)).k = p.k
        rw [ih]
        unfold step thenDo
        split
        · rfl
        · exact (sameRound_handleMessage m p).1
    unfold currentRound
    rw [hk]
    rfl

theorem ticks_facts (n : Nat) (p : ConsensusProcess D) (hr : roundReady p)
    (hp : p.panicked = false) (hM : ∀ x, D.Marshal x ≠ none) :
    (run (List.replicate n tick).flatten p).panicked = false ∧
    roundReady (run (List.replicate n tick).flatten p) := by
  induction n generalizing p with
  | zero => exact ⟨hp, hr⟩
  | succ n ih =>
    simp only [List.replicate_succ, List.flatten_cons]
    rw [run_append]
    have t := tick_facts p hr hp
    exact ih _ (t.1 (t.2 hM)) (t.2 hM)

theorem trackersPresentWhenUsed_of_ready (q : ConsensusProcess D) (hr : roundReady q) :
    trackersPresentWhenUsed q := by
  have e := onRoundEnd_facts q hr
  refine ⟨fun h => ⟨hr.1 h, e.2.2.2.1 h⟩, fun h => ?_, hr.2.2⟩
  show (onRoundEnd q).proposalTracker.isSome = true
  rw [e.2.1]
  exact hr.2.1 h

/-- C17: round handlers never fault along the event loop's cadence. The round `k mod 4` of
every state is one of Round1..Round4, so `onRoundBegin` never reaches its out-of-bounds
panic. From the state built by `NewConsensusProcess`, after the first `onRoundBegin` and any
number `n` of round ticks, every tracker a handler uses is present when used, and when
marshalling does not fail (the explicit panic of `sendMessage`) the process has not panicked.
The same holds with message deliveries before the first `onRoundBegin` and between the
ticks, as long as no delivery has panicked: the trackers are present and the next tick does
not panic. -/
theorem round_handlers_never_fault (D : Deps) (cfg : Config) (instanceId : InstanceId) (s : D.HSet) :
    (∀ p : ConsensusProcess D,
      currentRound p = Round1 ∨ currentRound p = Round2 ∨ currentRound p = Round3 ∨
      currentRound p = Round4) ∧
    (∀ n : Nat,
      ((run (cadence n) (NewConsensusProcess D cfg instanceId s)).panicked = false →
        trackersPresentWhenUsed (run (cadence n) (NewConsensusProcess D cfg instanceId s))) ∧
      ((∀ x, D.Marshal x ≠ none) →
        (run (cadence n) (NewConsensusProcess D cfg instanceId s)).panicked = false)) ∧
    (∀ (pre : List Message) (rounds : List (List Message)),
      (run (loopEvents pre rounds) (NewConsensusProcess D cfg instanceId s)).panicked = false →
      trackersPresentWhenUsed
        (run (loopEvents pre rounds) (NewConsensusProcess D cfg instanceId s)) ∧
      ((∀ x, D.Marshal x ≠ none) →
        (run tick
          (run (loopEvents pre rounds) (NewConsensusProcess D cfg instanceId s))).panicked =
            false)) := by
  have hloop := readyOrPanicked_loop (D := D) cfg instanceId s
  have hcad : ∀ n, cadence n = loopEvents [] (List.replicate n []) := by
    intro n
    unfold cadence loopEvents
    simp only [List.map_nil, List.nil_append, List.singleton_append, List.map_replicate]
  refine ⟨currentRound_cases, fun n => ⟨fun hn => ?_, fun hM => ?_⟩, fun pre rounds hn => ?_⟩
  · rcases (hcad n ▸ hloop [] (List.replicate n [])) with h | h
    · rw [hn] at h
      cases h
    · exact trackersPresentWhenUsed_of_ready _ h
  · unfold cadence
    rw [show (Event.roundBegin :: (List.replicate n tick).flatten) =
      [Event.roundBegin] ++ (List.replicate n tick).flatten from rfl, run_append]
    have h0 := onRoundBegin_facts (NewConsensusProcess D cfg instanceId s)
    have hb : run [Event.roundBegin] (NewConsensusProcess D cfg instanceId s) =
        onRoundBegin (NewConsensusProcess D cfg instanceId s) := rfl
    have hp0 : (onRoundBegin (NewConsensusProcess D cfg instanceId s)).panicked = false :=
      h0.2.2 hM
        (fun h => absurd ((currentRound_new cfg instanceId s).symm.trans h) (by decide))
        (fun h => absurd ((currentRound_new cfg instanceId s).symm.trans h) (by decide))
    have hr0 : roundReady (onRoundBegin (NewConsensusProcess D cfg instanceId s)) := by
      rcases readyOrPanicked_roundBegin (NewConsensusProcess D cfg instanceId s) rfl with h | h
      · have h' : (onRoundBegin (NewConsensusProcess D cfg instanceId s)).panicked = true := h
        rw [hp0] at h'
        cases h'
      · exact h
    rw [hb]
    exact (ticks_facts n _ hr0 hp0 hM).1
  · rcases hloop pre rounds with h | h
    · rw [hn] at h
      cases h
    · exact ⟨trackersPresentWhenUsed_of_ready _ h, fun hM => (tick_facts _ h hn).2 hM⟩

/-- Witness of C17 on the fresh process `proc0`: nine ticks after the first `onRoundBegin`
the process has not panicked and its round counter is 9. -/
theorem round_handlers_never_fault_witness :
    (run (cadence 9) proc0).panicked = false ∧ (run (cadence 9) proc0).k = 9 :=
  ⟨((round_handlers_never_fault specDeps cfg41 { bytes := [7] } [[10]]).2.1 9).2 (fun _ h => by cases h), by decide⟩

/-- Witness of C12 on `procCommits`, where a proposal for `{a}` and two commits were
received: `endOfRound3` commits `{a}` and sets `notifySent`. -/
theorem endOfRound3_effect_witness :
    (endOfRound3 procCommits).s = specDeps.NewSet [[10]] ∧
    (endOfRound3 procCommits).notifySent = true ∧
    (endOfRound3 procCommits).panicked = false :=
  ⟨((endOfRound3_effect procCommits).1 _ _ _ _ (by decide) (by decide) rfl (by decide) rfl
      (by decide) rfl rfl).1,
   (((endOfRound3_effect procCommits).1 _ _ _ _ (by decide) (by decide) rfl (by decide) rfl
      (by decide) rfl rfl).2.2.2.2.2.2 (fun _ h => by cases h)).1,
   (((endOfRound3_effect procCommits).1 _ _ _ _ (by decide) (by decide) rfl (by decide) rfl
      (by decide) rfl rfl).2.2.2.2.2.2 (fun _ h => by cases h)).2⟩

/-- Witness of C13 on `procProposed`, where a proposal for `{a}` was received: `beginRound3`
hands a Commit carrying `{a}` to `sendMessage`. -/
theorem beginRound3_commit_witness :
    ∃ msg inner, (beginRound3 procProposed).handed = procProposed.handed ++ [msg] ∧
      msg.message = some inner ∧ inner.type = MessageType.Commit ∧
      inner.values = specDeps.setValues [[10]] :=
  let ⟨msg, inner, h1, h2, h3, h4, _⟩ :=
    (beginRound3_commit procProposed _ rfl (by decide) (by decide)).2.1 [[10]] rfl
  ⟨msg, inner, h1, h2, h3, h4⟩

/-! ## The certificate predicate -/

theorem notifyUpdate_adopt (msg : HareMessage) (inner : InnerMessage) (p : ConsensusProcess D)
    (K : Nat) (hr : currentRound p = Round4) (hK : certFirstK msg = some K)
    (hge : p.ki ≤ toInt32 K) :
    notifyUpdate msg inner p =
      { p with s := D.NewSet inner.values, certificate := msg.cert, ki := inner.ki } := by
  unfold notifyUpdate
  simp only [hr, hK, if_true]
  rw [if_pos hge]

/-- C5 (amended): the predicate "if `ki >= 0` then the certificate is present and certifies
`s` at iteration `ki`" holds in the state built by `NewConsensusProcess`. It is preserved by
`processNotifyMsg` for every Notify whose certificate certifies the Notify's own value set
at the iteration given by the Notify's own `ki` field, in every call but one that terminates
on a set different from `s` without adopting the Notify while `ki >= 0`: that is, whenever
the Round4 guard on the certificate holds, or no termination output is written, or `s` is
unchanged, or `ki < 0`. It is preserved by `endOfRound3` whenever it does not commit; and
when `endOfRound3` commits, it stores the built certificate together with the proposed set,
so the stored certificate certifies the stored `s` at every iteration at which the built
certificate certifies the proposed set. -/
theorem certInv_preserved (D : Deps) :
    (∀ (cfg : Config) (instanceId : InstanceId) (s : D.HSet),
      certInv (NewConsensusProcess D cfg instanceId s)) ∧
    (∀ (msg : HareMessage) (p : ConsensusProcess D), certInv p →
      (∀ inner, msg.message = some inner → 0 ≤ inner.ki →
        ∃ c, msg.cert = some c ∧ certifies D c (D.NewSet inner.values) inner.ki) →
      ((currentRound p = Round4 ∧ ∃ K, certFirstK msg = some K ∧ p.ki ≤ toInt32 K) ∨
        (processNotifyMsg msg p).terminationReport = p.terminationReport ∨
        (processNotifyMsg msg p).s = p.s ∨ p.ki < 0) →
      certInv (processNotifyMsg msg p)) ∧
    (∀ p : ConsensusProcess D, certInv p →
      (¬ ∃ pt ct cert s, p.notifySent = false ∧
        p.proposalTracker = some pt ∧ D.IsConflicting pt = false ∧
        p.commitTracker = some ct ∧ D.HasEnoughCommits ct = true ∧
        D.BuildCertificate ct = some cert ∧ D.ProposedSet pt = some s) →
      certInv (endOfRound3 p)) ∧
    (∀ (p : ConsensusProcess D) pt ct cert s (it : Int), p.notifySent = false →
      p.proposalTracker = some pt → D.IsConflicting pt = false →
      p.commitTracker = some ct → D.HasEnoughCommits ct = true →
      D.BuildCertificate ct = some cert → D.ProposedSet pt = some s →
      certifies D cert s it →
      ∃ c, (endOfRound3 p).certificate = some c ∧ certifies D c (endOfRound3 p).s it) := by
  refine ⟨?_, ?_, ?_, ?_⟩
  · intro cfg instanceId s h
    exact absurd h (by simp [NewConsensusProcess])
  · intro msg p hinv hmsg hsafe
    cases hm : msg.message with
    | none =>
      rw [processNotifyMsg_none msg p hm]
      exact hinv
    | some inner =>
      rw [processNotifyMsg_some msg inner p hm] at hsafe ⊢
      cases hig : (D.OnNotify p.notifyTracker msg).1 with
      | true =>
        simp only [if_true]
        exact hinv
      | false =>
        rw [hig] at hsafe
        simp only [Bool.false_eq_true, if_false] at hsafe ⊢
        have hfr := notifyUpdate_frame msg inner
          { p with notifyTracker := (D.OnNotify p.notifyTracker msg).2 }
        by_cases hgd : currentRound p = Round4 ∧ ∃ K, certFirstK msg = some K ∧ p.ki ≤ toInt32 K
        · obtain ⟨hr, K, hK, hge⟩ := hgd
          have ha := notifyUpdate_adopt msg inner
            { p with notifyTracker := (D.OnNotify p.notifyTracker msg).2 } K hr hK hge
          rw [ha]
          have hadopted : ∀ q : ConsensusProcess D, q.s = D.NewSet inner.values →
              q.ki = inner.ki → q.certificate = msg.cert → certInv q := by
            intro q h1 h2 h3 h0
            rw [h2] at h0
            obtain ⟨c, hc, hcert⟩ := hmsg inner hm h0
            refine ⟨c, by rw [h3, hc], ?_⟩
            rw [h1, h2]
            exact hcert
          unfold thenDo notifyFinish
          split
          · exact hadopted _ rfl rfl rfl
          · split
            · exact hadopted _ rfl rfl rfl
            · exact hadopted _ rfl rfl rfl
        · have hg := notifyUpdate_guard msg inner
            { p with notifyTracker := (D.OnNotify p.notifyTracker msg).2 }
          rcases hg with ⟨g1, g2, g3⟩ | ⟨gr, gK, -⟩
          · have hu : certInv (notifyUpdate msg inner
                { p with notifyTracker := (D.OnNotify p.notifyTracker msg).2 }) :=
              certInv_congr g1 g2 g3 hinv
            unfold thenDo at hsafe ⊢
            split
            · exact hu
            · rename_i hpan
              rw [if_neg hpan] at hsafe
              unfold notifyFinish at hsafe ⊢
              split
              · exact hu
              · rename_i hlt
                rw [if_neg hlt] at hsafe
                rcases hsafe with h | h | h | h
                · exact absurd h hgd
                · exfalso
                  have h4 := hfr.2.2.2.1
                  simp only [h4] at h
                  simp at h
                · have hs : D.NewSet inner.values = p.s := h
                  exact certInv_congr (p := p) hs g2 g3 hinv
                · intro h0
                  have h0' : 0 ≤ (notifyUpdate msg inner
                    { p with notifyTracker := (D.OnNotify p.notifyTracker msg).2 }).ki := h0
                  rw [g2] at h0'
                  have h0'' : 0 ≤ p.ki := h0'
                  omega
          · exact absurd ⟨gr, gK⟩ hgd
  · intro p hinv hno
    unfold endOfRound3
    split
    · exact hinv
    · rename_i hns
      split
      · exact hinv
      · rename_i pt hpt
        split
        · exact hinv
        · rename_i hcf
          split
          · exact hinv
          · rename_i ct hct
            split
            · exact hinv
            · rename_i hen
              split
              · exact hinv
              · rename_i cert hbc
                split
                · exact hinv
                · rename_i s hps
                  exfalso
                  exact hno ⟨pt, ct, cert, s, by simpa using hns, hpt, by simpa using hcf, hct,
                    by simpa using hen, hbc, hps⟩
  · intro p pt ct cert s it hns hpt hcf hct hen hbc hps hcert
    rw [endOfRound3_commit_eq p pt ct cert s hns hpt hcf hct hen hbc hps]
    simp only [MessageBuilder.Build]
    obtain ⟨bc, pan, he, -, -, -⟩ := sendMessage_some_eq
      (HareMessage.mk
        ((((initDefaultBuilder s
          ({ p with s := s, certificate := some cert } : ConsensusProcess D)).SetType
            MessageType.Notify).SetCertificate (some cert)).Sign D).pubKey
        ((((initDefaultBuilder s
          ({ p with s := s, certificate := some cert } : ConsensusProcess D)).SetType
            MessageType.Notify).SetCertificate (some cert)).Sign D).innerSig
        (some ((((initDefaultBuilder s
          ({ p with s := s, certificate := some cert } : ConsensusProcess D)).SetType
            MessageType.Notify).SetCertificate (some cert)).Sign D).inner)
        ((((initDefaultBuilder s
          ({ p with s := s, certificate := some cert } : ConsensusProcess D)).SetType
            MessageType.Notify).SetCertificate (some cert)).Sign D).cert
        ((((initDefaultBuilder s
          ({ p with s := s, certificate := some cert } : ConsensusProcess D)).SetType
            MessageType.Notify).SetCertificate (some cert)).Sign D).svp)
      ({ p with s := s, certificate := some cert } : ConsensusProcess D)
    rw [he]
    unfold thenDo
    split
    · exact ⟨cert, rfl, hcert⟩
    · exact ⟨cert, rfl, hcert⟩

theorem certifies_mkCert (k : Nat) (vals : List Bytes) :
    certifies specDeps (mkCert k vals) (specDeps.NewSet vals) (iterationFromCounter k) := by
  refine ⟨AggregatedMessages.mk _, rfl, by simp [AggregatedMessages.messages], ?_⟩
  intro om hom
  simp only [AggregatedMessages.messages, List.mem_cons, List.mem_singleton,
    List.not_mem_nil, or_false] at hom
  rcases hom with h | h <;> subst h <;> exact ⟨_, _, rfl, rfl, rfl, rfl⟩

/-- Witness of the amended C5. The process `proc7n` (Round4, `ki = 1`, `s = {b}`) handles
the Notify `notifyB1` for `{b}` (`ki = 1`, certificate of iteration 1): the guard holds, the
process terminates and the predicate holds afterwards. On `procCommits`, `endOfRound3`
commits `{a}` and the stored certificate certifies the stored `s` at iteration 0. -/
theorem certInv_preserved_witness :
    certInv (processNotifyMsg notifyB1 proc7n) ∧
    (processNotifyMsg notifyB1 proc7n).terminating = true ∧
    (∃ c, (endOfRound3 procCommits).certificate = some c ∧
      certifies specDeps c (endOfRound3 procCommits).s 0) :=
  ⟨(certInv_preserved specDeps).2.1 notifyB1 proc7n
    (fun _ => ⟨mkCert 6 [[20]], rfl, certifies_mkCert 6 [[20]]⟩)
    (fun inner hm _ => by
      cases hm
      exact ⟨mkCert 6 [[20]], rfl, certifies_mkCert 6 [[20]]⟩)
    (Or.inl ⟨rfl, 6, rfl, by decide⟩),
   by decide,
   (certInv_preserved specDeps).2.2.2 procCommits _ _ _ _ 0 (by decide) rfl (by decide) rfl (by decide)
    rfl rfl (certifies_mkCert 2 [[10]])⟩

end Hare
